import Mathlib

/-!
Verification of the core linking logic of the `sym` symlink farm manager
(`internal/sym/sym.go`).

Shallow embedding choices:
* A filesystem path is its list of components (`Path`); the Go code only ever
  compares whole paths built by `filepath.Join` from cleaned absolute roots, so
  string equality of joined paths coincides with list equality of components.
* The target tree (the only tree the program mutates) is a flat association
  list from absolute paths to nodes (`FS`).  `os.Lstat` is `lookupFS`;
  `os.Stat` is `statNode`, which follows symlink chains (a chain that does not
  end at a real node behaves as nonexistent, matching `os.IsNotExist` on the
  common error).
* The source tree is read-only input, modelled as a tree value (`SrcNode` /
  `SrcForest`); `filepath.Walk` over a package becomes the pre-order entry
  list `walkEntries` (directories before their children, siblings in list
  order; the code's lexical sibling order is not semantically significant).
* Fallible filesystem mutation: `os.MkdirAll` fails on an obstructed path
  (`mkdirFailed`), and `os.Remove` may fail at the filesystem level, modelled
  by an explicit fault oracle `faults : Path → Bool` (`removeFailed`).
  `os.Symlink` is only invoked after the code has established that the target
  path is absent, so it is modelled as an insertion.
-/

namespace SymSpec

/-- A filesystem path, as its list of components. -/
abbrev Path := List String

/-- A node of the target filesystem: a plain file, a directory (with its
permission bits), or a symbolic link storing its destination path. -/
inductive FSNode where
  | file : FSNode
  | dir (perm : Nat) : FSNode
  | symlink (dest : Path) : FSNode
deriving DecidableEq, Repr

/-- The target filesystem: an association list from paths to nodes. -/
abbrev FS := List (Path × FSNode)

/-- `os.Lstat`: look the path itself up, without following symlinks. -/
def lookupFS : FS → Path → Option FSNode
  | [], _ => none
  | (q, n) :: rest, p => if q = p then some n else lookupFS rest p

/-- `os.Remove`: delete the entry at a path (the path itself, never its
referent). -/
def eraseFS : FS → Path → FS
  | [], _ => []
  | (q, n) :: rest, p => if q = p then eraseFS rest p else (q, n) :: eraseFS rest p

/-- Create an entry at a path (used only at paths that are absent). -/
def insertFS (fs : FS) (p : Path) (n : FSNode) : FS :=
  (p, n) :: eraseFS fs p

theorem lookupFS_eraseFS (p q : Path) :
    ∀ fs : FS, lookupFS (eraseFS fs p) q = if p = q then none else lookupFS fs q := by
  intro fs
  induction fs with
  | nil => simp [eraseFS, lookupFS]
  | cons hd tl ih =>
    rcases hd with ⟨r, n⟩
    by_cases hrp : r = p
    · subst hrp
      rw [show eraseFS ((r, n) :: tl) r = eraseFS tl r from if_pos rfl]
      rw [ih]
      by_cases hpq : r = q
      · simp [hpq, lookupFS]
      · simp [lookupFS, hpq]
    · rw [show eraseFS ((r, n) :: tl) p = (r, n) :: eraseFS tl p from if_neg hrp]
      by_cases hrq : r = q
      · subst hrq
        have hpq : ¬ p = r := fun h => hrp h.symm
        simp [lookupFS, hpq]
      · simp only [lookupFS, if_neg hrq]
        exact ih

theorem lookupFS_insertFS (fs : FS) (p q : Path) (n : FSNode) :
    lookupFS (insertFS fs p n) q = if p = q then some n else lookupFS fs q := by
  by_cases hpq : p = q
  · subst hpq; simp [insertFS, lookupFS]
  · simp [insertFS, lookupFS, hpq, lookupFS_eraseFS]

theorem eraseFS_of_lookup_none (p : Path) :
    ∀ fs : FS, lookupFS fs p = none → eraseFS fs p = fs := by
  intro fs
  induction fs with
  | nil => intro; rfl
  | cons hd tl ih =>
    rcases hd with ⟨r, n⟩
    intro h
    by_cases hrp : r = p
    · subst hrp; simp [lookupFS] at h
    · simp only [lookupFS, if_neg hrp] at h
      rw [show eraseFS ((r, n) :: tl) p = (r, n) :: eraseFS tl p from if_neg hrp, ih h]

theorem length_insertFS_of_lookup_none (fs : FS) (p : Path) (n : FSNode)
    (h : lookupFS fs p = none) : (insertFS fs p n).length = fs.length + 1 := by
  simp [insertFS, eraseFS_of_lookup_none p fs h]

theorem length_eraseFS_le (p : Path) : ∀ fs : FS, (eraseFS fs p).length ≤ fs.length := by
  intro fs
  induction fs with
  | nil => simp [eraseFS]
  | cons hd tl ih =>
    rcases hd with ⟨r, n⟩
    by_cases hrp : r = p
    · rw [show eraseFS ((r, n) :: tl) p = eraseFS tl p from if_pos hrp]
      simpa using Nat.le_succ_of_le ih
    · rw [show eraseFS ((r, n) :: tl) p = (r, n) :: eraseFS tl p from if_neg hrp]
      simpa using ih

theorem dropLast_isPre (l : Path) : l.dropLast <+: l :=
  List.dropLast_prefix l

/-- Follow a symlink chain for at most `fuel` steps; `none` both for a missing
entry and for a chain that never reaches a real node. -/
def resolveNode (fs : FS) : Nat → Path → Option FSNode
  | 0, _ => none
  | fuel + 1, p =>
    match lookupFS fs p with
    | some (.symlink d) => resolveNode fs fuel d
    | o => o

/-- `os.Stat`: resolve the path through symlinks.  `fs.length + 1` steps of
fuel suffice for any acyclic chain; a cyclic chain behaves as nonexistent. -/
def statNode (fs : FS) (p : Path) : Option FSNode :=
  resolveNode fs (fs.length + 1) p

/-- One filesystem extends another when it keeps every present entry intact
(and is at least as large); all mutations of the link walk are of this shape,
because the code only ever creates entries at absent paths. -/
def Grows (fs fs' : FS) : Prop :=
  fs.length ≤ fs'.length ∧ ∀ p v, lookupFS fs p = some v → lookupFS fs' p = some v

theorem Grows.refl (fs : FS) : Grows fs fs := ⟨le_rfl, fun _ _ h => h⟩

theorem Grows.trans {fs₁ fs₂ fs₃ : FS} (h₁ : Grows fs₁ fs₂) (h₂ : Grows fs₂ fs₃) :
    Grows fs₁ fs₃ :=
  ⟨le_trans h₁.1 h₂.1, fun p v h => h₂.2 p v (h₁.2 p v h)⟩

theorem resolveNode_mono_fuel {fs : FS} {v : FSNode} :
    ∀ {f f' : Nat} {p : Path}, f ≤ f' → resolveNode fs f p = some v →
      resolveNode fs f' p = some v := by
  intro f
  induction f with
  | zero => intro f' p _ h; simp [resolveNode] at h
  | succ k ih =>
    intro f' p hle h
    obtain ⟨f'', rfl⟩ : ∃ f'', f' = f'' + 1 :=
      ⟨f' - 1, by omega⟩
    have hk : k ≤ f'' := by omega
    simp only [resolveNode] at h ⊢
    cases hl : lookupFS fs p with
    | none => rw [hl] at h; simp at h
    | some n =>
      rw [hl] at h
      cases n with
      | file => simpa using h
      | dir m => simpa using h
      | symlink d => exact ih hk h

theorem resolveNode_grows {fs fs' : FS} (hg : Grows fs fs') {v : FSNode} :
    ∀ {f : Nat} {p : Path}, resolveNode fs f p = some v → resolveNode fs' f p = some v := by
  intro f
  induction f with
  | zero => intro p h; simp [resolveNode] at h
  | succ k ih =>
    intro p h
    simp only [resolveNode] at h ⊢
    cases hl : lookupFS fs p with
    | none => rw [hl] at h; simp at h
    | some n =>
      rw [hg.2 p n hl]
      rw [hl] at h
      cases n with
      | file => simpa using h
      | dir m => simpa using h
      | symlink d => exact ih h

theorem statNode_grows {fs fs' : FS} (hg : Grows fs fs') {p : Path} {v : FSNode}
    (h : statNode fs p = some v) : statNode fs' p = some v := by
  have h1 : resolveNode fs' (fs.length + 1) p = some v := resolveNode_grows hg h
  have hlen := hg.1
  exact resolveNode_mono_fuel (by omega : fs.length + 1 ≤ fs'.length + 1) h1

theorem statNode_of_lookup_none {fs : FS} {p : Path} (h : lookupFS fs p = none) :
    statNode fs p = none := by
  simp [statNode, resolveNode, h]

/-- The configuration value (`sym.Config`): source root, target root and the
mode flags.  The roots are absolute, already resolved paths. -/
structure Config where
  SymDir : Path
  TargetDir : Path
  Verbose : Bool
  Simulate : Bool
  Delete : Bool
  ReSym : Bool
  Packages : List String
deriving Repr

/-- The errors the walks can surface, mirroring the `fmt.Errorf` sites:
a missing package directory, the two conflict messages of `createSymlink`,
a failed `os.MkdirAll`, a failed `os.Remove`, and the `resym` wrapper
around an unlink-phase error. -/
inductive SymError where
  | notFound (pkgPath : Path)
  | conflictOther (targetPath actual expected : Path)
  | conflictNotLink (targetPath : Path)
  | mkdirFailed (p : Path)
  | removeFailed (p : Path)
  | unsymFailed (e : SymError)
deriving DecidableEq, Repr

/-- The errors that are pure decisions (computed before any mutation):
NotFound and the two Conflict kinds.  IO failures are excluded. -/
def decisionError : SymError → Bool
  | .notFound _ => true
  | .conflictOther _ _ _ => true
  | .conflictNotLink _ => true
  | _ => false

/-- `os.MkdirAll`, fuelled by the path length so that the recursion on
`dropLast` is structural.  At each level: an existing directory (after
following links) is kept; an existing non-directory is an error; otherwise
the parents are created first and then the directory itself. -/
def mkdirAllF (fs : FS) (m : Nat) : Nat → Path → Except SymError FS
  | _, [] => .ok fs
  | 0, _ :: _ => .ok fs
  | fuel + 1, c :: cs =>
    match statNode fs (c :: cs) with
    | some (.dir _) => .ok fs
    | some _ => .error (.mkdirFailed (c :: cs))
    | none =>
      match lookupFS fs (c :: cs) with
      | some _ => .error (.mkdirFailed (c :: cs))
      | none =>
        match mkdirAllF fs m fuel (c :: cs).dropLast with
        | .error e => .error e
        | .ok fs' => .ok (insertFS fs' (c :: cs) (.dir m))

/-- `os.MkdirAll fs p m`: create the directory `p` and any missing parents,
all with mode `m`. -/
def mkdirAll (fs : FS) (p : Path) (m : Nat) : Except SymError FS :=
  mkdirAllF fs m p.length p

/-- `createSymlink` (sym.go:125-168).  If the target exists (by `Lstat`):
an identical symlink is a no-op, a different symlink or a non-symlink is a
Conflict error.  Otherwise the parent directory is created when the `Stat`
probe reports it missing (mode `0o755`), and the symlink is created; both
mutations are skipped under simulate. -/
def createSymlink (config : Config) (fs : FS) (srcPath targetPath : Path) :
    Except SymError FS :=
  match lookupFS fs targetPath with
  | some (.symlink link) =>
    if link = srcPath then .ok fs
    else .error (.conflictOther targetPath link srcPath)
  | some _ => .error (.conflictNotLink targetPath)
  | none =>
    let step1 : Except SymError FS :=
      match statNode fs targetPath.dropLast with
      | none => if config.Simulate then .ok fs else mkdirAll fs targetPath.dropLast 0o755
      | some _ => .ok fs
    match step1 with
    | .error e => .error e
    | .ok fs1 => if config.Simulate then .ok fs1 else .ok (insertFS fs1 targetPath (.symlink srcPath))

/-- `removeSymlink` (sym.go:170-215).  A missing target, a non-symlink
target, or a symlink with a different stored destination are tolerated
no-ops; only a symlink whose destination equals `srcPath` is removed, and
only when simulate is off.  `faults` says whether `os.Remove` fails at a
path. -/
def removeSymlink (config : Config) (faults : Path → Bool) (fs : FS)
    (srcPath targetPath : Path) : Except SymError FS :=
  match lookupFS fs targetPath with
  | none => .ok fs
  | some (.symlink link) =>
    if link = srcPath then
      if config.Simulate then .ok fs
      else if faults targetPath then .error (.removeFailed targetPath)
      else .ok (eraseFS fs targetPath)
    else .ok fs
  | some _ => .ok fs

/-- The fault-free `os.Remove` oracle (normal operation). -/
def noFaults : Path → Bool := fun _ => false

/-! ## The source tree and the walks -/

mutual
/-- A node of the read-only source tree: a plain file, or a directory with
its permission bits and named children. -/
inductive SrcNode where
  | file : SrcNode
  | dir (perm : Nat) (children : SrcForest) : SrcNode
/-- The named children of a source directory, in traversal order. -/
inductive SrcForest where
  | nil : SrcForest
  | cons (name : String) (node : SrcNode) (rest : SrcForest) : SrcForest
end

/-- `info.IsDir()`. -/
def SrcNode.isDir : SrcNode → Bool
  | .file => false
  | .dir _ _ => true

/-- `info.Mode()`: the permission bits of a source directory. -/
def SrcNode.perm : SrcNode → Nat
  | .file => 0
  | .dir m _ => m

/-- The entries `filepath.Walk` hands to the callback for a forest, as
(path relative to the package root, file info) pairs, in pre-order:
each entry before its own children, siblings in order. -/
def walkForest : SrcForest → List (Path × SrcNode)
  | .nil => []
  | .cons n SrcNode.file rest => ([n], SrcNode.file) :: walkForest rest
  | .cons n (SrcNode.dir m cs) rest =>
      ([n], SrcNode.dir m cs) ::
        (((walkForest cs).map (fun pr => (n :: pr.1, pr.2))) ++ walkForest rest)

/-- The entries of a package walk.  The package root itself is skipped by
the callback (`path == pkgPath`), so it does not appear; walking a
non-directory package root visits nothing beyond the skipped root. -/
def SrcNode.walkEntries : SrcNode → List (Path × SrcNode)
  | .file => []
  | .dir _ cs => walkForest cs

/-- `n` does not occur among the names of a forest. -/
def nameFresh (n : String) : SrcForest → Bool
  | .nil => true
  | .cons m _ rest => (n != m) && nameFresh n rest

/-- `n` occurs among the names of a forest. -/
def nameIn (n : String) : SrcForest → Bool
  | .nil => false
  | .cons m _ rest => (n == m) || nameIn n rest

/-- Well-formedness of a source forest: sibling names are distinct at every
level — automatically true of a real directory tree. -/
def wfbForest : SrcForest → Bool
  | .nil => true
  | .cons n SrcNode.file rest => nameFresh n rest && wfbForest rest
  | .cons n (SrcNode.dir _ cs) rest => nameFresh n rest && wfbForest cs && wfbForest rest

/-- Well-formedness of a source node. -/
def SrcNode.wfb : SrcNode → Bool
  | .file => true
  | .dir _ cs => wfbForest cs

/-! ## The walks (sym.go:43-123) and the dispatcher (sym.go:22-41) -/

/-- One step of the link walk (the callback body of `symPackage`):
`targetPath = join(TargetDir, relPath)`; a directory entry is created when
the `os.Stat` probe reports it missing (with the source's mode, unless
simulate); any other entry goes through `createSymlink` with the absolute
source path `pkgRoot ++ relPath`. -/
def symEntry (config : Config) (pkgRoot : Path) (fs : FS) (e : Path × SrcNode) :
    Except SymError FS :=
  if e.2.isDir then
    match statNode fs (config.TargetDir ++ e.1) with
    | none => if config.Simulate then .ok fs else mkdirAll fs (config.TargetDir ++ e.1) e.2.perm
    | some _ => .ok fs
  else createSymlink config fs (pkgRoot ++ e.1) (config.TargetDir ++ e.1)

/-- Fold the link-walk step over the entry list, aborting at the first
error (`filepath.Walk` stops when the callback returns an error). -/
def runSym (config : Config) (pkgRoot : Path) :
    List (Path × SrcNode) → FS → Except SymError FS
  | [], fs => .ok fs
  | e :: rest, fs =>
    match symEntry config pkgRoot fs e with
    | .error er => .error er
    | .ok fs' => runSym config pkgRoot rest fs'

/-- `symPackage` (sym.go:43-88): the link walk over a package. -/
def symPackage (config : Config) (pkg : String) (root : SrcNode) (fs : FS) :
    Except SymError FS :=
  runSym config (config.SymDir ++ [pkg]) root.walkEntries fs

/-- One step of the unlink walk (the callback body of `unsymPackage`):
directory entries are ignored; other entries go through `removeSymlink`. -/
def unsymEntry (config : Config) (faults : Path → Bool) (pkgRoot : Path) (fs : FS)
    (e : Path × SrcNode) : Except SymError FS :=
  if e.2.isDir then .ok fs
  else removeSymlink config faults fs (pkgRoot ++ e.1) (config.TargetDir ++ e.1)

/-- Fold the unlink-walk step over the entry list, aborting at the first
error. -/
def runUnsym (config : Config) (faults : Path → Bool) (pkgRoot : Path) :
    List (Path × SrcNode) → FS → Except SymError FS
  | [], fs => .ok fs
  | e :: rest, fs =>
    match unsymEntry config faults pkgRoot fs e with
    | .error er => .error er
    | .ok fs' => runUnsym config faults pkgRoot rest fs'

/-- `unsymPackage` (sym.go:90-123): the unlink walk over a package. -/
def unsymPackage (config : Config) (faults : Path → Bool) (pkg : String) (root : SrcNode)
    (fs : FS) : Except SymError FS :=
  runUnsym config faults (config.SymDir ++ [pkg]) root.walkEntries fs

/-- The `os.Stat(pkgPath)` probe of `ProcessPackage`: the package name looked
up in the listing of the source root. -/
def lookupPkg : SrcForest → String → Option SrcNode
  | .nil, _ => none
  | .cons n c rest, pkg => if n = pkg then some c else lookupPkg rest pkg

/-- `ProcessPackage` (sym.go:22-41): resolve the package inside the source
root (NotFound when absent), then dispatch on the mode flags: `ReSym` runs
the unlink walk and, only if it succeeded, the link walk (an unlink error is
wrapped as `unsymFailed`); otherwise `Delete` runs the unlink walk alone, and
the default runs the link walk alone. -/
def ProcessPackage (config : Config) (faults : Path → Bool) (srcPkgs : SrcForest)
    (pkg : String) (fs : FS) : Except SymError FS :=
  match lookupPkg srcPkgs pkg with
  | none => .error (.notFound (config.SymDir ++ [pkg]))
  | some root =>
    if config.ReSym then
      match unsymPackage config faults pkg root fs with
      | .error e => .error (.unsymFailed e)
      | .ok fs' => symPackage config pkg root fs'
    else if config.Delete then unsymPackage config faults pkg root fs
    else symPackage config pkg root fs

/-! ## Lemmas about `mkdirAll` -/

theorem mkdirAllF_spec :
    ∀ (fuel : Nat) (p : Path) (fs : FS) (m : Nat) (fs' : FS),
      mkdirAllF fs m fuel p = .ok fs' →
      Grows fs fs' ∧
      ∀ q, lookupFS fs' q = lookupFS fs q ∨
        (lookupFS fs q = none ∧ q ≠ [] ∧ q <+: p ∧ lookupFS fs' q = some (.dir m)) := by
  intro fuel
  induction fuel with
  | zero =>
    intro p fs m fs' h
    cases p with
    | nil =>
      simp only [mkdirAllF, Except.ok.injEq] at h
      subst h
      exact ⟨Grows.refl fs, fun q => Or.inl rfl⟩
    | cons c cs =>
      simp only [mkdirAllF, Except.ok.injEq] at h
      subst h
      exact ⟨Grows.refl fs, fun q => Or.inl rfl⟩
  | succ k ih =>
    intro p fs m fs' h
    cases p with
    | nil =>
      simp only [mkdirAllF, Except.ok.injEq] at h
      subst h
      exact ⟨Grows.refl fs, fun q => Or.inl rfl⟩
    | cons c cs =>
      simp only [mkdirAllF] at h
      cases hstat : statNode fs (c :: cs) with
      | some w =>
        rw [hstat] at h
        cases w with
        | dir m' =>
          simp only [Except.ok.injEq] at h
          subst h
          exact ⟨Grows.refl fs, fun q => Or.inl rfl⟩
        | file => simp at h
        | symlink d => simp at h
      | none =>
        rw [hstat] at h
        cases hl : lookupFS fs (c :: cs) with
        | some n => rw [hl] at h; simp at h
        | none =>
          rw [hl] at h
          cases hrec : mkdirAllF fs m k (c :: cs).dropLast with
          | error e => rw [hrec] at h; simp at h
          | ok fs'' =>
            rw [hrec] at h
            simp only [Except.ok.injEq] at h
            subst h
            obtain ⟨hg, hchar⟩ := ih (c :: cs).dropLast fs m fs'' hrec
            have hself : lookupFS fs'' (c :: cs) = none := by
              rcases hchar (c :: cs) with h1 | h1
              · rw [h1, hl]
              · exfalso
                have hlen := h1.2.2.1.length_le
                rw [List.length_dropLast] at hlen
                simp only [List.length_cons] at hlen
                omega
            constructor
            · refine ⟨?_, ?_⟩
              · have := length_insertFS_of_lookup_none fs'' (c :: cs) (.dir m) hself
                have := hg.1
                omega
              · intro q v hq
                have hne : ¬ ((c :: cs) = q) := by
                  intro hcq
                  rw [hcq] at hl
                  rw [hl] at hq
                  exact Option.noConfusion hq
                rw [lookupFS_insertFS, if_neg hne]
                exact hg.2 q v hq
            · intro q
              by_cases hq : (c :: cs) = q
              · subst hq
                right
                refine ⟨hl, by simp, List.prefix_refl _, ?_⟩
                rw [lookupFS_insertFS, if_pos rfl]
              · rw [lookupFS_insertFS, if_neg hq]
                rcases hchar q with h1 | h1
                · exact Or.inl h1
                · exact Or.inr ⟨h1.1, h1.2.1, h1.2.2.1.trans (dropLast_isPre _), h1.2.2.2⟩

theorem mkdirAll_spec {fs : FS} {p : Path} {m : Nat} {fs' : FS}
    (h : mkdirAll fs p m = .ok fs') :
    Grows fs fs' ∧
    ∀ q, lookupFS fs' q = lookupFS fs q ∨
      (lookupFS fs q = none ∧ q ≠ [] ∧ q <+: p ∧ lookupFS fs' q = some (.dir m)) :=
  mkdirAllF_spec p.length p fs m fs' h

theorem mkdirAll_lookup_self {fs : FS} {p : Path} {m : Nat} {fs' : FS}
    (hne : p ≠ []) (hl : lookupFS fs p = none) (h : mkdirAll fs p m = .ok fs') :
    lookupFS fs' p = some (.dir m) := by
  cases p with
  | nil => exact absurd rfl hne
  | cons c cs =>
    unfold mkdirAll at h
    simp only [List.length_cons, mkdirAllF] at h
    rw [statNode_of_lookup_none hl] at h
    rw [hl] at h
    cases hrec : mkdirAllF fs m cs.length (c :: cs).dropLast with
    | error e => rw [hrec] at h; simp at h
    | ok fs'' =>
      rw [hrec] at h
      simp only [Except.ok.injEq] at h
      subst h
      rw [lookupFS_insertFS, if_pos rfl]

theorem mkdirAllF_err :
    ∀ (fuel : Nat) (p : Path) (fs : FS) (m : Nat) (e : SymError),
      mkdirAllF fs m fuel p = .error e → ∃ q, e = .mkdirFailed q := by
  intro fuel
  induction fuel with
  | zero =>
    intro p fs m e h
    cases p with
    | nil => simp [mkdirAllF] at h
    | cons c cs => simp [mkdirAllF] at h
  | succ k ih =>
    intro p fs m e h
    cases p with
    | nil => simp [mkdirAllF] at h
    | cons c cs =>
      simp only [mkdirAllF] at h
      cases hstat : statNode fs (c :: cs) with
      | some w =>
        rw [hstat] at h
        cases w with
        | dir m' => simp at h
        | file => simp only [Except.error.injEq] at h; exact ⟨c :: cs, h.symm⟩
        | symlink d => simp only [Except.error.injEq] at h; exact ⟨c :: cs, h.symm⟩
      | none =>
        rw [hstat] at h
        cases hl : lookupFS fs (c :: cs) with
        | some n =>
          rw [hl] at h
          simp only [Except.error.injEq] at h
          exact ⟨c :: cs, h.symm⟩
        | none =>
          rw [hl] at h
          cases hrec : mkdirAllF fs m k (c :: cs).dropLast with
          | error e' =>
            rw [hrec] at h
            simp only [Except.error.injEq] at h
            subst h
            exact ih _ fs m _ hrec
          | ok fs'' => rw [hrec] at h; simp at h

theorem mkdirAll_err {fs : FS} {p : Path} {m : Nat} {e : SymError}
    (h : mkdirAll fs p m = .error e) : ∃ q, e = .mkdirFailed q :=
  mkdirAllF_err p.length p fs m e h

/-! ## Lemmas about `createSymlink` and `removeSymlink` -/

theorem createSymlink_noop {cfg : Config} {fs : FS} {s t : Path}
    (hl : lookupFS fs t = some (.symlink s)) : createSymlink cfg fs s t = .ok fs := by
  simp [createSymlink, hl]

theorem createSymlink_conflictOther {cfg : Config} {fs : FS} {s t d : Path}
    (hl : lookupFS fs t = some (.symlink d)) (hne : ¬ d = s) :
    createSymlink cfg fs s t = .error (.conflictOther t d s) := by
  simp [createSymlink, hl, hne]

theorem createSymlink_conflictNotLink {cfg : Config} {fs : FS} {s t : Path} {n : FSNode}
    (hl : lookupFS fs t = some n) (hn : ∀ d, ¬ n = .symlink d) :
    createSymlink cfg fs s t = .error (.conflictNotLink t) := by
  cases n with
  | file => simp [createSymlink, hl]
  | dir m => simp [createSymlink, hl]
  | symlink d => exact absurd rfl (hn d)

/-- Evaluation of `createSymlink` when the target is absent: under simulate
nothing happens; otherwise the parent chain is created when the `Stat` probe
misses, and the symlink is inserted. -/
theorem createSymlink_none_eval (cfg : Config) (fs : FS) (s t : Path)
    (hl : lookupFS fs t = none) :
    createSymlink cfg fs s t =
      if cfg.Simulate = true then .ok fs
      else
        match statNode fs t.dropLast with
        | some _ => .ok (insertFS fs t (.symlink s))
        | none =>
          match mkdirAll fs t.dropLast 493 with
          | .error e => .error e
          | .ok fs1 => .ok (insertFS fs1 t (.symlink s)) := by
  simp only [createSymlink, hl]
  cases hsim : cfg.Simulate with
  | true =>
    cases hstat : statNode fs t.dropLast <;> simp
  | false =>
    cases hstat : statNode fs t.dropLast with
    | none =>
      cases hmk : mkdirAll fs t.dropLast 493 with
      | error e => simp [hmk]
      | ok fs1 => simp [hmk]
    | some w => simp

theorem createSymlink_none_sim {cfg : Config} {fs : FS} {s t : Path}
    (hsim : cfg.Simulate = true) (hl : lookupFS fs t = none) :
    createSymlink cfg fs s t = .ok fs := by
  rw [createSymlink_none_eval cfg fs s t hl, if_pos hsim]

theorem createSymlink_sim_nomut {cfg : Config} {fs : FS} {s t : Path} {fs' : FS}
    (hsim : cfg.Simulate = true) (h : createSymlink cfg fs s t = .ok fs') : fs' = fs := by
  cases hl : lookupFS fs t with
  | some n =>
    cases n with
    | symlink d =>
      by_cases hd : d = s
      · subst hd
        rw [createSymlink_noop hl] at h
        simp only [Except.ok.injEq] at h
        exact h.symm
      · rw [createSymlink_conflictOther hl hd] at h; simp at h
    | file =>
      rw [createSymlink_conflictNotLink hl (fun d => by simp)] at h; simp at h
    | dir m =>
      rw [createSymlink_conflictNotLink hl (fun d => by simp)] at h; simp at h
  | none =>
    rw [createSymlink_none_sim hsim hl] at h
    simp only [Except.ok.injEq] at h
    exact h.symm

theorem createSymlink_err_decision {cfg : Config} {fs : FS} {s t : Path} {e : SymError}
    (h : createSymlink cfg fs s t = .error e) (hd : decisionError e = true) :
    ∃ n, lookupFS fs t = some n ∧
      ((∃ d, n = .symlink d ∧ ¬ d = s ∧ e = .conflictOther t d s) ∨
       ((∀ d, ¬ n = .symlink d) ∧ e = .conflictNotLink t)) := by
  cases hl : lookupFS fs t with
  | some n =>
    refine ⟨n, rfl, ?_⟩
    cases n with
    | symlink d =>
      by_cases hds : d = s
      · subst hds
        rw [createSymlink_noop hl] at h
        simp at h
      · rw [createSymlink_conflictOther hl hds] at h
        simp only [Except.error.injEq] at h
        exact Or.inl ⟨d, rfl, hds, h.symm⟩
    | file =>
      rw [createSymlink_conflictNotLink hl (fun d => by simp)] at h
      simp only [Except.error.injEq] at h
      exact Or.inr ⟨fun d => by simp, h.symm⟩
    | dir m =>
      rw [createSymlink_conflictNotLink hl (fun d => by simp)] at h
      simp only [Except.error.injEq] at h
      exact Or.inr ⟨fun d => by simp, h.symm⟩
  | none =>
    exfalso
    rw [createSymlink_none_eval cfg fs s t hl] at h
    by_cases hsim : cfg.Simulate = true
    · rw [if_pos hsim] at h; simp at h
    · rw [if_neg hsim] at h
      cases hstat : statNode fs t.dropLast with
      | some w => rw [hstat] at h; simp at h
      | none =>
        rw [hstat] at h
        cases hmk : mkdirAll fs t.dropLast 493 with
        | error e' =>
          rw [hmk] at h
          simp only [Except.error.injEq] at h
          obtain ⟨q, hq⟩ := mkdirAll_err hmk
          rw [← h, hq] at hd
          simp [decisionError] at hd
        | ok fs1 => rw [hmk] at h; simp at h

theorem removeSymlink_none {cfg : Config} {faults : Path → Bool} {fs : FS} {s t : Path}
    (hl : lookupFS fs t = none) : removeSymlink cfg faults fs s t = .ok fs := by
  simp [removeSymlink, hl]

theorem removeSymlink_nonlink {cfg : Config} {faults : Path → Bool} {fs : FS} {s t : Path}
    {n : FSNode} (hl : lookupFS fs t = some n) (hn : ∀ d, ¬ n = .symlink d) :
    removeSymlink cfg faults fs s t = .ok fs := by
  cases n with
  | file => simp [removeSymlink, hl]
  | dir m => simp [removeSymlink, hl]
  | symlink d => exact absurd rfl (hn d)

theorem removeSymlink_other {cfg : Config} {faults : Path → Bool} {fs : FS} {s t d : Path}
    (hl : lookupFS fs t = some (.symlink d)) (hne : ¬ d = s) :
    removeSymlink cfg faults fs s t = .ok fs := by
  simp [removeSymlink, hl, hne]

theorem removeSymlink_match_sim {cfg : Config} {faults : Path → Bool} {fs : FS} {s t : Path}
    (hsim : cfg.Simulate = true) (hl : lookupFS fs t = some (.symlink s)) :
    removeSymlink cfg faults fs s t = .ok fs := by
  simp [removeSymlink, hl, hsim]

theorem removeSymlink_match_real {cfg : Config} {faults : Path → Bool} {fs : FS} {s t : Path}
    (hsim : cfg.Simulate = false) (hf : faults t = false)
    (hl : lookupFS fs t = some (.symlink s)) :
    removeSymlink cfg faults fs s t = .ok (eraseFS fs t) := by
  simp [removeSymlink, hl, hsim, hf]

theorem removeSymlink_match_fault {cfg : Config} {faults : Path → Bool} {fs : FS} {s t : Path}
    (hsim : cfg.Simulate = false) (hf : faults t = true)
    (hl : lookupFS fs t = some (.symlink s)) :
    removeSymlink cfg faults fs s t = .error (.removeFailed t) := by
  simp [removeSymlink, hl, hsim, hf]

/-- Every outcome of `removeSymlink`: either the filesystem is untouched, or
exactly the matching symlink is erased; the only error is a remove fault. -/
theorem removeSymlink_cases (cfg : Config) (faults : Path → Bool) (fs : FS) (s t : Path) :
    removeSymlink cfg faults fs s t = .ok fs ∨
    (lookupFS fs t = some (.symlink s) ∧ cfg.Simulate = false ∧ faults t = false ∧
      removeSymlink cfg faults fs s t = .ok (eraseFS fs t)) ∨
    (lookupFS fs t = some (.symlink s) ∧ cfg.Simulate = false ∧ faults t = true ∧
      removeSymlink cfg faults fs s t = .error (.removeFailed t)) := by
  cases hl : lookupFS fs t with
  | none => exact Or.inl (removeSymlink_none hl)
  | some n =>
    cases n with
    | file => exact Or.inl (removeSymlink_nonlink hl (fun d => by simp))
    | dir m => exact Or.inl (removeSymlink_nonlink hl (fun d => by simp))
    | symlink d =>
      by_cases hds : d = s
      · subst hds
        cases hsim : cfg.Simulate with
        | true => exact Or.inl (removeSymlink_match_sim hsim hl)
        | false =>
          cases hf : faults t with
          | false => exact Or.inr (Or.inl ⟨rfl, rfl, rfl, removeSymlink_match_real hsim hf hl⟩)
          | true => exact Or.inr (Or.inr ⟨rfl, rfl, rfl, removeSymlink_match_fault hsim hf hl⟩)
      · exact Or.inl (removeSymlink_other hl hds)

theorem removeSymlink_sim {cfg : Config} {faults : Path → Bool} {fs : FS} {s t : Path}
    (hsim : cfg.Simulate = true) : removeSymlink cfg faults fs s t = .ok fs := by
  rcases removeSymlink_cases cfg faults fs s t with h | h | h
  · exact h
  · rw [hsim] at h; simp at h
  · rw [hsim] at h; simp at h

theorem removeSymlink_err {cfg : Config} {faults : Path → Bool} {fs : FS} {s t : Path}
    {e : SymError} (h : removeSymlink cfg faults fs s t = .error e) :
    e = .removeFailed t := by
  rcases removeSymlink_cases cfg faults fs s t with h1 | h1 | h1
  · rw [h1] at h; simp at h
  · rw [h1.2.2.2] at h; simp at h
  · rw [h1.2.2.2] at h
    simp only [Except.error.injEq] at h
    exact h.symm

/-! ## Lemmas about the walk steps -/

theorem symEntry_dir_eval (cfg : Config) (P : Path) (fs : FS) (e : Path × SrcNode)
    (hdir : e.2.isDir = true) :
    symEntry cfg P fs e =
      match statNode fs (cfg.TargetDir ++ e.1) with
      | none =>
        if cfg.Simulate = true then .ok fs else mkdirAll fs (cfg.TargetDir ++ e.1) e.2.perm
      | some _ => .ok fs := by
  simp [symEntry, hdir]

theorem symEntry_file_eval (cfg : Config) (P : Path) (fs : FS) (e : Path × SrcNode)
    (hf : e.2.isDir = false) :
    symEntry cfg P fs e = createSymlink cfg fs (P ++ e.1) (cfg.TargetDir ++ e.1) := by
  simp [symEntry, hf]

/-- Errors a single link-walk step can produce. -/
def symStepError : SymError → Bool
  | .conflictOther _ _ _ => true
  | .conflictNotLink _ => true
  | .mkdirFailed _ => true
  | _ => false

theorem createSymlink_err_shape {cfg : Config} {fs : FS} {s t : Path} {e : SymError}
    (h : createSymlink cfg fs s t = .error e) : symStepError e = true := by
  cases hl : lookupFS fs t with
  | some n =>
    cases n with
    | symlink d =>
      by_cases hds : d = s
      · subst hds; rw [createSymlink_noop hl] at h; simp at h
      · rw [createSymlink_conflictOther hl hds] at h
        simp only [Except.error.injEq] at h
        rw [← h]; rfl
    | file =>
      rw [createSymlink_conflictNotLink hl (fun d => by simp)] at h
      simp only [Except.error.injEq] at h
      rw [← h]; rfl
    | dir m =>
      rw [createSymlink_conflictNotLink hl (fun d => by simp)] at h
      simp only [Except.error.injEq] at h
      rw [← h]; rfl
  | none =>
    rw [createSymlink_none_eval cfg fs s t hl] at h
    by_cases hsim : cfg.Simulate = true
    · rw [if_pos hsim] at h; simp at h
    · rw [if_neg hsim] at h
      cases hstat : statNode fs t.dropLast with
      | some w => rw [hstat] at h; simp at h
      | none =>
        rw [hstat] at h
        cases hmk : mkdirAll fs t.dropLast 493 with
        | error e' =>
          rw [hmk] at h
          simp only [Except.error.injEq] at h
          obtain ⟨q, hq⟩ := mkdirAll_err hmk
          rw [← h, hq]; rfl
        | ok fs1 => rw [hmk] at h; simp at h

/-- After a successful real-mode `createSymlink`, the target holds the
expected symlink (it either already did, or was just created). -/
theorem createSymlink_ok_post {cfg : Config} {fs : FS} {s t : Path} {fs' : FS}
    (hreal : cfg.Simulate = false) (h : createSymlink cfg fs s t = .ok fs') :
    lookupFS fs' t = some (.symlink s) := by
  cases hl : lookupFS fs t with
  | some n =>
    cases n with
    | symlink d =>
      by_cases hds : d = s
      · subst hds
        rw [createSymlink_noop hl] at h
        simp only [Except.ok.injEq] at h
        rw [← h]; exact hl
      · rw [createSymlink_conflictOther hl hds] at h; simp at h
    | file => rw [createSymlink_conflictNotLink hl (fun d => by simp)] at h; simp at h
    | dir m => rw [createSymlink_conflictNotLink hl (fun d => by simp)] at h; simp at h
  | none =>
    rw [createSymlink_none_eval cfg fs s t hl, hreal] at h
    simp only [Bool.false_eq_true, if_false] at h
    cases hstat : statNode fs t.dropLast with
    | some w =>
      rw [hstat] at h
      simp only [Except.ok.injEq] at h
      rw [← h, lookupFS_insertFS, if_pos rfl]
    | none =>
      rw [hstat] at h
      cases hmk : mkdirAll fs t.dropLast 493 with
      | error e' => rw [hmk] at h; simp at h
      | ok fs1 =>
        rw [hmk] at h
        simp only [Except.ok.injEq] at h
        rw [← h, lookupFS_insertFS, if_pos rfl]

/-- A successful `createSymlink` only ever creates entries at absent paths
that are (weak) prefixes of the target path: parent directories, plus the
symlink at the target itself. -/
theorem createSymlink_spec {cfg : Config} {fs : FS} {s t : Path} {fs' : FS}
    (h : createSymlink cfg fs s t = .ok fs') :
    Grows fs fs' ∧
    ∀ q, lookupFS fs' q = lookupFS fs q ∨
      (lookupFS fs q = none ∧ q <+: t ∧
        ((∃ m, lookupFS fs' q = some (.dir m)) ∨
         (q = t ∧ lookupFS fs' q = some (.symlink s)))) := by
  cases hl : lookupFS fs t with
  | some n =>
    cases n with
    | symlink d =>
      by_cases hds : d = s
      · subst hds
        rw [createSymlink_noop hl] at h
        simp only [Except.ok.injEq] at h
        rw [← h]
        exact ⟨Grows.refl fs, fun q => Or.inl rfl⟩
      · rw [createSymlink_conflictOther hl hds] at h; simp at h
    | file => rw [createSymlink_conflictNotLink hl (fun d => by simp)] at h; simp at h
    | dir m => rw [createSymlink_conflictNotLink hl (fun d => by simp)] at h; simp at h
  | none =>
    rw [createSymlink_none_eval cfg fs s t hl] at h
    by_cases hsim : cfg.Simulate = true
    · rw [if_pos hsim] at h
      simp only [Except.ok.injEq] at h
      rw [← h]
      exact ⟨Grows.refl fs, fun q => Or.inl rfl⟩
    · rw [if_neg hsim] at h
      cases hstat : statNode fs t.dropLast with
      | some w =>
        rw [hstat] at h
        simp only [Except.ok.injEq] at h
        rw [← h]
        constructor
        · constructor
          · rw [length_insertFS_of_lookup_none fs t _ hl]; omega
          · intro q v hq
            have hne : ¬ (t = q) := by
              intro hq'; rw [← hq', hl] at hq; exact Option.noConfusion hq
            rw [lookupFS_insertFS, if_neg hne]; exact hq
        · intro q
          by_cases hq : t = q
          · subst hq
            exact Or.inr ⟨hl, List.prefix_refl _, Or.inr ⟨rfl, by rw [lookupFS_insertFS, if_pos rfl]⟩⟩
          · rw [lookupFS_insertFS, if_neg hq]
            exact Or.inl rfl
      | none =>
        rw [hstat] at h
        cases hmk : mkdirAll fs t.dropLast 493 with
        | error e' => rw [hmk] at h; simp at h
        | ok fs1 =>
          rw [hmk] at h
          simp only [Except.ok.injEq] at h
          rw [← h]
          obtain ⟨hg1, hchar1⟩ := mkdirAll_spec hmk
          have hl1 : lookupFS fs1 t = none := by
            rcases hchar1 t with h1 | h1
            · rw [h1, hl]
            · exfalso
              have hlen := h1.2.2.1.length_le
              rw [List.length_dropLast] at hlen
              have ht : 0 < t.length := List.length_pos.mpr h1.2.1
              omega
          constructor
          · constructor
            · have := length_insertFS_of_lookup_none fs1 t (.symlink s) hl1
              have := hg1.1
              omega
            · intro q v hq
              have hne : ¬ (t = q) := by
                intro hq'; rw [← hq', hl] at hq; exact Option.noConfusion hq
              rw [lookupFS_insertFS, if_neg hne]
              exact hg1.2 q v hq
          · intro q
            by_cases hq : t = q
            · subst hq
              exact Or.inr ⟨hl, List.prefix_refl _, Or.inr ⟨rfl, by rw [lookupFS_insertFS, if_pos rfl]⟩⟩
            · rw [lookupFS_insertFS, if_neg hq]
              rcases hchar1 q with h1 | h1
              · exact Or.inl h1
              · exact Or.inr ⟨h1.1, h1.2.2.1.trans (dropLast_isPre _), Or.inl ⟨493, h1.2.2.2⟩⟩

/-- Top-level unfolding of a successful `mkdirAll` whose `Stat` probe missed:
the raw path slot was empty (a dangling symlink there would have failed) and
now holds the directory. -/
theorem mkdirAll_top {fs : FS} {p : Path} {m : Nat} {fs' : FS}
    (hne : p ≠ []) (hstat : statNode fs p = none) (h : mkdirAll fs p m = .ok fs') :
    lookupFS fs p = none ∧ lookupFS fs' p = some (.dir m) := by
  cases p with
  | nil => exact absurd rfl hne
  | cons c cs =>
    cases hl : lookupFS fs (c :: cs) with
    | none => exact ⟨rfl, mkdirAll_lookup_self (by simp) hl h⟩
    | some n =>
      exfalso
      unfold mkdirAll at h
      simp only [List.length_cons, mkdirAllF] at h
      rw [hstat, hl] at h
      simp at h

/-- A successful link-walk step only creates entries at absent paths that are
prefixes of this entry's target path: parent directories, the directory for a
directory entry, or the symlink for a file entry. -/
theorem symEntry_spec {cfg : Config} {P : Path} {fs : FS} {e : Path × SrcNode} {fs' : FS}
    (h : symEntry cfg P fs e = .ok fs') :
    Grows fs fs' ∧
    ∀ q, lookupFS fs' q = lookupFS fs q ∨
      (lookupFS fs q = none ∧ q <+: (cfg.TargetDir ++ e.1) ∧
        ((∃ m, lookupFS fs' q = some (.dir m)) ∨
         (q = cfg.TargetDir ++ e.1 ∧ e.2.isDir = false ∧
          lookupFS fs' q = some (.symlink (P ++ e.1))))) := by
  cases hdir : e.2.isDir with
  | true =>
    rw [symEntry_dir_eval cfg P fs e hdir] at h
    cases hstat : statNode fs (cfg.TargetDir ++ e.1) with
    | some w =>
      rw [hstat] at h
      simp only [Except.ok.injEq] at h
      rw [← h]
      exact ⟨Grows.refl fs, fun q => Or.inl rfl⟩
    | none =>
      rw [hstat] at h
      by_cases hsim : cfg.Simulate = true
      · rw [if_pos hsim] at h
        simp only [Except.ok.injEq] at h
        rw [← h]
        exact ⟨Grows.refl fs, fun q => Or.inl rfl⟩
      · rw [if_neg hsim] at h
        obtain ⟨hg, hchar⟩ := mkdirAll_spec h
        refine ⟨hg, fun q => ?_⟩
        rcases hchar q with h1 | h1
        · exact Or.inl h1
        · exact Or.inr ⟨h1.1, h1.2.2.1, Or.inl ⟨_, h1.2.2.2⟩⟩
  | false =>
    rw [symEntry_file_eval cfg P fs e hdir] at h
    obtain ⟨hg, hchar⟩ := createSymlink_spec h
    refine ⟨hg, fun q => ?_⟩
    rcases hchar q with h1 | h1
    · exact Or.inl h1
    · rcases h1.2.2 with h2 | h2
      · exact Or.inr ⟨h1.1, h1.2.1, Or.inl h2⟩
      · exact Or.inr ⟨h1.1, h1.2.1, Or.inr ⟨h2.1, rfl, h2.2⟩⟩

theorem symEntry_sim_nomut {cfg : Config} {P : Path} {fs : FS} {e : Path × SrcNode} {fs' : FS}
    (hsim : cfg.Simulate = true) (h : symEntry cfg P fs e = .ok fs') : fs' = fs := by
  cases hdir : e.2.isDir with
  | true =>
    rw [symEntry_dir_eval cfg P fs e hdir] at h
    cases hstat : statNode fs (cfg.TargetDir ++ e.1) with
    | some w => rw [hstat] at h; simp only [Except.ok.injEq] at h; exact h.symm
    | none =>
      rw [hstat, if_pos hsim] at h
      simp only [Except.ok.injEq] at h
      exact h.symm
  | false =>
    rw [symEntry_file_eval cfg P fs e hdir] at h
    exact createSymlink_sim_nomut hsim h

theorem symEntry_err_shape {cfg : Config} {P : Path} {fs : FS} {e : Path × SrcNode}
    {er : SymError} (h : symEntry cfg P fs e = .error er) : symStepError er = true := by
  cases hdir : e.2.isDir with
  | true =>
    rw [symEntry_dir_eval cfg P fs e hdir] at h
    cases hstat : statNode fs (cfg.TargetDir ++ e.1) with
    | some w => rw [hstat] at h; simp at h
    | none =>
      rw [hstat] at h
      by_cases hsim : cfg.Simulate = true
      · rw [if_pos hsim] at h; simp at h
      · rw [if_neg hsim] at h
        obtain ⟨q, hq⟩ := mkdirAll_err h
        rw [hq]; rfl
  | false =>
    rw [symEntry_file_eval cfg P fs e hdir] at h
    exact createSymlink_err_shape h

/-- A directory entry can only fail with a directory-creation IO failure,
never with a Conflict (or NotFound) error. -/
theorem symEntry_dir_err {cfg : Config} {P : Path} {fs : FS} {e : Path × SrcNode}
    {er : SymError} (hdir : e.2.isDir = true) (h : symEntry cfg P fs e = .error er) :
    ∃ q, er = .mkdirFailed q := by
  rw [symEntry_dir_eval cfg P fs e hdir] at h
  cases hstat : statNode fs (cfg.TargetDir ++ e.1) with
  | some w => rw [hstat] at h; simp at h
  | none =>
    rw [hstat] at h
    by_cases hsim : cfg.Simulate = true
    · rw [if_pos hsim] at h; simp at h
    · rw [if_neg hsim] at h
      exact mkdirAll_err h

/-! ## Lemmas about `runSym` -/

theorem runSym_ok_spec {cfg : Config} {P : Path} :
    ∀ (entries : List (Path × SrcNode)) (fs fs' : FS),
      runSym cfg P entries fs = .ok fs' →
      Grows fs fs' ∧
      ∀ q, lookupFS fs' q = lookupFS fs q ∨
        (lookupFS fs q = none ∧
          ((∃ m, lookupFS fs' q = some (.dir m)) ∨
           (∃ e ∈ entries, q = cfg.TargetDir ++ e.1 ∧ e.2.isDir = false ∧
            lookupFS fs' q = some (.symlink (P ++ e.1))))) := by
  intro entries
  induction entries with
  | nil =>
    intro fs fs' h
    simp only [runSym, Except.ok.injEq] at h
    rw [← h]
    exact ⟨Grows.refl fs, fun q => Or.inl rfl⟩
  | cons e rest ih =>
    intro fs fs' h
    simp only [runSym] at h
    cases hstep : symEntry cfg P fs e with
    | error er => rw [hstep] at h; simp at h
    | ok fs₂ =>
      rw [hstep] at h
      obtain ⟨hg₂, hchar₂⟩ := symEntry_spec hstep
      obtain ⟨hg', hchar'⟩ := ih fs₂ fs' h
      refine ⟨hg₂.trans hg', fun q => ?_⟩
      rcases hchar' q with h1 | h1
      · rcases hchar₂ q with h2 | h2
        · exact Or.inl (h1.trans h2)
        · rcases h2.2.2 with h3 | h3
          · obtain ⟨m, hm⟩ := h3
            exact Or.inr ⟨h2.1, Or.inl ⟨m, h1.trans hm⟩⟩
          · exact Or.inr ⟨h2.1, Or.inr ⟨e, List.mem_cons_self e rest, h3.1, h3.2.1, h1.trans h3.2.2⟩⟩
      · obtain ⟨hnone₂, hrest⟩ := h1
        rcases hchar₂ q with h2 | h2
        · rw [h2] at hnone₂
          rcases hrest with h3 | h3
          · exact Or.inr ⟨hnone₂, Or.inl h3⟩
          · obtain ⟨e', he', h4⟩ := h3
            exact Or.inr ⟨hnone₂, Or.inr ⟨e', List.mem_cons_of_mem e he', h4⟩⟩
        · rcases h2.2.2 with h3 | h3
          · obtain ⟨m, hm⟩ := h3
            rw [hm] at hnone₂
            exact Option.noConfusion hnone₂
          · rw [h3.2.2] at hnone₂
            exact Option.noConfusion hnone₂

theorem runSym_grows {cfg : Config} {P : Path} {entries : List (Path × SrcNode)} {fs fs' : FS}
    (h : runSym cfg P entries fs = .ok fs') : Grows fs fs' :=
  (runSym_ok_spec entries fs fs' h).1

theorem runSym_sim_nomut {cfg : Config} {P : Path} (hsim : cfg.Simulate = true) :
    ∀ (entries : List (Path × SrcNode)) (fs fs' : FS),
      runSym cfg P entries fs = .ok fs' → fs' = fs := by
  intro entries
  induction entries with
  | nil =>
    intro fs fs' h
    simp only [runSym, Except.ok.injEq] at h
    exact h.symm
  | cons e rest ih =>
    intro fs fs' h
    simp only [runSym] at h
    cases hstep : symEntry cfg P fs e with
    | error er => rw [hstep] at h; simp at h
    | ok fs₂ =>
      rw [hstep] at h
      rw [ih fs₂ fs' h, symEntry_sim_nomut hsim hstep]

theorem runSym_err_shape {cfg : Config} {P : Path} :
    ∀ (entries : List (Path × SrcNode)) (fs : FS) {er : SymError},
      runSym cfg P entries fs = .error er → symStepError er = true := by
  intro entries
  induction entries with
  | nil => intro fs er h; simp [runSym] at h
  | cons e rest ih =>
    intro fs er h
    simp only [runSym] at h
    cases hstep : symEntry cfg P fs e with
    | error er' =>
      rw [hstep] at h
      simp only [Except.error.injEq] at h
      rw [← h]
      exact symEntry_err_shape hstep
    | ok fs₂ =>
      rw [hstep] at h
      exact ih fs₂ h

/-- After a successful real-mode link walk: every file entry's target holds
the expected symlink, and every directory entry's target resolves to an
existing node. -/
theorem runSym_post {cfg : Config} {P : Path} (hreal : cfg.Simulate = false) :
    ∀ (entries : List (Path × SrcNode)) (fs fs' : FS),
      (∀ e ∈ entries, e.1 ≠ []) →
      runSym cfg P entries fs = .ok fs' →
      ∀ e ∈ entries,
        (e.2.isDir = false →
          lookupFS fs' (cfg.TargetDir ++ e.1) = some (.symlink (P ++ e.1))) ∧
        (e.2.isDir = true → ∃ w, statNode fs' (cfg.TargetDir ++ e.1) = some w) := by
  intro entries
  induction entries with
  | nil => intro fs fs' _ _ e he; exact absurd he (List.not_mem_nil e)
  | cons e₀ rest ih =>
    intro fs fs' hne h e he
    simp only [runSym] at h
    cases hstep : symEntry cfg P fs e₀ with
    | error er => rw [hstep] at h; simp at h
    | ok fs₂ =>
      rw [hstep] at h
      rcases List.mem_cons.mp he with rfl | he'
      · constructor
        · intro hf
          have hpost : lookupFS fs₂ (cfg.TargetDir ++ e.1) = some (.symlink (P ++ e.1)) := by
            rw [symEntry_file_eval cfg P fs e hf] at hstep
            exact createSymlink_ok_post hreal hstep
          exact (runSym_grows h).2 _ _ hpost
        · intro hd
          rw [symEntry_dir_eval cfg P fs e hd] at hstep
          cases hstat : statNode fs (cfg.TargetDir ++ e.1) with
          | some w =>
            rw [hstat] at hstep
            simp only [Except.ok.injEq] at hstep
            rw [hstep] at hstat
            exact ⟨w, statNode_grows (runSym_grows h) hstat⟩
          | none =>
            rw [hstat, hreal] at hstep
            simp only [Bool.false_eq_true, if_false] at hstep
            have hTne : cfg.TargetDir ++ e.1 ≠ [] := by
              intro hnil
              exact (hne e (List.mem_cons_self e rest))
                (List.append_eq_nil.mp hnil).2
            obtain ⟨-, hself⟩ := mkdirAll_top hTne hstat hstep
            have : statNode fs₂ (cfg.TargetDir ++ e.1) = some (.dir e.2.perm) := by
              simp [statNode, resolveNode, hself]
            exact ⟨_, statNode_grows (runSym_grows h) this⟩
      · exact ih fs₂ fs' (fun x hx => hne x (List.mem_cons_of_mem e₀ hx)) h e he'

/-! ## Lemmas about `runUnsym` -/

/-- Every outcome of an unlink-walk step: untouched, or exactly the matching
symlink at this entry's target erased; the only error is a remove fault. -/
theorem unsymEntry_cases (cfg : Config) (faults : Path → Bool) (P : Path) (fs : FS)
    (e : Path × SrcNode) :
    unsymEntry cfg faults P fs e = .ok fs ∨
    (e.2.isDir = false ∧
      lookupFS fs (cfg.TargetDir ++ e.1) = some (.symlink (P ++ e.1)) ∧
      cfg.Simulate = false ∧ faults (cfg.TargetDir ++ e.1) = false ∧
      unsymEntry cfg faults P fs e = .ok (eraseFS fs (cfg.TargetDir ++ e.1))) ∨
    (e.2.isDir = false ∧
      unsymEntry cfg faults P fs e = .error (.removeFailed (cfg.TargetDir ++ e.1))) := by
  cases hdir : e.2.isDir with
  | true => exact Or.inl (by simp [unsymEntry, hdir])
  | false =>
    have heval : unsymEntry cfg faults P fs e =
        removeSymlink cfg faults fs (P ++ e.1) (cfg.TargetDir ++ e.1) := by
      simp [unsymEntry, hdir]
    rcases removeSymlink_cases cfg faults fs (P ++ e.1) (cfg.TargetDir ++ e.1) with h | h | h
    · exact Or.inl (heval.trans h)
    · exact Or.inr (Or.inl ⟨rfl, h.1, h.2.1, h.2.2.1, heval.trans h.2.2.2⟩)
    · exact Or.inr (Or.inr ⟨rfl, heval.trans h.2.2.2⟩)

theorem unsymEntry_sim {cfg : Config} {faults : Path → Bool} {P : Path} {fs : FS}
    {e : Path × SrcNode} (hsim : cfg.Simulate = true) :
    unsymEntry cfg faults P fs e = .ok fs := by
  cases hdir : e.2.isDir with
  | true => simp [unsymEntry, hdir]
  | false =>
    simp only [unsymEntry, hdir, Bool.false_eq_true, if_false]
    exact removeSymlink_sim hsim

theorem runUnsym_sim {cfg : Config} {faults : Path → Bool} {P : Path}
    (hsim : cfg.Simulate = true) :
    ∀ (entries : List (Path × SrcNode)) (fs : FS),
      runUnsym cfg faults P entries fs = .ok fs := by
  intro entries
  induction entries with
  | nil => intro fs; rfl
  | cons e rest ih =>
    intro fs
    simp only [runUnsym, unsymEntry_sim hsim]
    exact ih fs

/-- A successful unlink walk changes the filesystem only by removing, at the
target path of some non-directory entry, a symlink that stored exactly the
corresponding source path. -/
theorem runUnsym_char {cfg : Config} {faults : Path → Bool} {P : Path} :
    ∀ (entries : List (Path × SrcNode)) (fs fs' : FS),
      runUnsym cfg faults P entries fs = .ok fs' →
      ∀ p, lookupFS fs' p = lookupFS fs p ∨
        (lookupFS fs' p = none ∧ ∃ e ∈ entries, e.2.isDir = false ∧
          p = cfg.TargetDir ++ e.1 ∧ lookupFS fs p = some (.symlink (P ++ e.1))) := by
  intro entries
  induction entries with
  | nil =>
    intro fs fs' h p
    simp only [runUnsym, Except.ok.injEq] at h
    rw [← h]
    exact Or.inl rfl
  | cons e rest ih =>
    intro fs fs' h p
    simp only [runUnsym] at h
    cases hstep : unsymEntry cfg faults P fs e with
    | error er => rw [hstep] at h; simp at h
    | ok fs₂ =>
      rw [hstep] at h
      have hmid := ih fs₂ fs' h p
      rcases unsymEntry_cases cfg faults P fs e with hc | hc | hc

      · rw [hstep] at hc
        simp only [Except.ok.injEq] at hc
        rw [hc] at hmid
        rcases hmid with h1 | h1
        · exact Or.inl h1
        · exact Or.inr ⟨h1.1, h1.2.elim fun e' he' =>
            ⟨e', List.mem_cons_of_mem e he'.1, he'.2⟩⟩
      · rw [hstep] at hc
        obtain ⟨hdir, hl, -, -, hc⟩ := hc
        simp only [Except.ok.injEq] at hc
        rw [hc] at hmid
        rcases hmid with h1 | h1
        · rw [h1, lookupFS_eraseFS]
          by_cases hp : cfg.TargetDir ++ e.1 = p
          · rw [if_pos hp]
            exact Or.inr ⟨rfl, e, List.mem_cons_self e rest, hdir, hp.symm, hp ▸ hl⟩
          · rw [if_neg hp]
            exact Or.inl rfl
        · obtain ⟨hnone, e', he', h2⟩ := h1
          rw [lookupFS_eraseFS] at h2
          by_cases hp : cfg.TargetDir ++ e.1 = p
          · rw [if_pos hp] at h2
            exact Option.noConfusion h2.2.2
          · rw [if_neg hp] at h2
            exact Or.inr ⟨hnone, e', List.mem_cons_of_mem e he', h2⟩
      · rw [hstep] at hc
        exact Except.noConfusion hc.2

theorem runUnsym_err {cfg : Config} {faults : Path → Bool} {P : Path} :
    ∀ (entries : List (Path × SrcNode)) (fs : FS) {er : SymError},
      runUnsym cfg faults P entries fs = .error er → ∃ q, er = .removeFailed q := by
  intro entries
  induction entries with
  | nil => intro fs er h; simp [runUnsym] at h
  | cons e rest ih =>
    intro fs er h
    simp only [runUnsym] at h
    cases hstep : unsymEntry cfg faults P fs e with
    | error er' =>
      rw [hstep] at h
      simp only [Except.error.injEq] at h
      subst h
      cases hdir : e.2.isDir with
      | true => simp [unsymEntry, hdir] at hstep
      | false =>
        simp only [unsymEntry, hdir, Bool.false_eq_true, if_false] at hstep
        exact ⟨_, removeSymlink_err hstep⟩
    | ok fs₂ =>
      rw [hstep] at h
      exact ih fs₂ h

theorem runUnsym_no_insert {cfg : Config} {faults : Path → Bool} {P : Path} :
    ∀ (entries : List (Path × SrcNode)) (fs fs' : FS) (p : Path),
      lookupFS fs p = none →
      runUnsym cfg faults P entries fs = .ok fs' → lookupFS fs' p = none := by
  intro entries fs fs' p hnone h
  rcases runUnsym_char entries fs fs' h p with h1 | h1
  · rw [h1, hnone]
  · exact h1.1

/-- In real mode with a fault-free `os.Remove`, an unlink walk over entries
whose file targets each hold the matching symlink (or nothing) succeeds and
leaves every file target empty. -/
theorem runUnsym_removes {cfg : Config} {faults : Path → Bool} {P : Path}
    (hreal : cfg.Simulate = false) (hf : ∀ p, faults p = false) :
    ∀ (entries : List (Path × SrcNode)) (fs : FS),
      (∀ e ∈ entries, e.2.isDir = false →
        lookupFS fs (cfg.TargetDir ++ e.1) = some (.symlink (P ++ e.1)) ∨
        lookupFS fs (cfg.TargetDir ++ e.1) = none) →
      ∃ fs', runUnsym cfg faults P entries fs = .ok fs' ∧
        ∀ e ∈ entries, e.2.isDir = false →
          lookupFS fs' (cfg.TargetDir ++ e.1) = none := by
  intro entries
  induction entries with
  | nil => intro fs _; exact ⟨fs, rfl, fun e he => absurd he (List.not_mem_nil e)⟩
  | cons e₀ rest ih =>
    intro fs hpre
    cases hdir : e₀.2.isDir with
    | true =>
      have hstep : unsymEntry cfg faults P fs e₀ = .ok fs := by simp [unsymEntry, hdir]
      obtain ⟨fs', hok, hrest⟩ := ih fs (fun e he hf' =>
        hpre e (List.mem_cons_of_mem e₀ he) hf')
      refine ⟨fs', by simp only [runUnsym, hstep]; exact hok, fun e he hf' => ?_⟩
      rcases List.mem_cons.mp he with rfl | he'
      · rw [hdir] at hf'; exact Bool.noConfusion hf'
      · exact hrest e he' hf'
    | false =>
      rcases hpre e₀ (List.mem_cons_self e₀ rest) hdir with hl | hl
      · have hstep : unsymEntry cfg faults P fs e₀ =
            .ok (eraseFS fs (cfg.TargetDir ++ e₀.1)) := by
          simp only [unsymEntry, hdir, Bool.false_eq_true, if_false]
          exact removeSymlink_match_real hreal (hf _) hl
        have hpre₂ : ∀ e ∈ rest, e.2.isDir = false →
            lookupFS (eraseFS fs (cfg.TargetDir ++ e₀.1)) (cfg.TargetDir ++ e.1) =
              some (.symlink (P ++ e.1)) ∨
            lookupFS (eraseFS fs (cfg.TargetDir ++ e₀.1)) (cfg.TargetDir ++ e.1) = none := by
          intro e he hf'
          rw [lookupFS_eraseFS]
          by_cases hp : cfg.TargetDir ++ e₀.1 = cfg.TargetDir ++ e.1
          · rw [if_pos hp]; exact Or.inr rfl
          · rw [if_neg hp]
            exact hpre e (List.mem_cons_of_mem e₀ he) hf'
        obtain ⟨fs', hok, hrest⟩ := ih (eraseFS fs (cfg.TargetDir ++ e₀.1)) hpre₂
        refine ⟨fs', by simp only [runUnsym, hstep]; exact hok, fun e he hf' => ?_⟩
        rcases List.mem_cons.mp he with rfl | he'
        · refine runUnsym_no_insert rest _ fs' _ ?_ hok
          rw [lookupFS_eraseFS, if_pos rfl]
        · exact hrest e he' hf'
      · have hstep : unsymEntry cfg faults P fs e₀ = .ok fs := by
          simp only [unsymEntry, hdir, Bool.false_eq_true, if_false]
          exact removeSymlink_none hl
        obtain ⟨fs', hok, hrest⟩ := ih fs (fun e he hf' =>
          hpre e (List.mem_cons_of_mem e₀ he) hf')
        refine ⟨fs', by simp only [runUnsym, hstep]; exact hok, fun e he hf' => ?_⟩
        rcases List.mem_cons.mp he with rfl | he'
        · exact runUnsym_no_insert rest fs fs' _ hl hok
        · exact hrest e he' hf'

/-! ## Structure of the pre-order entry list -/

theorem append_same_left_iff {T x y : Path} : (T ++ x <+: T ++ y) ↔ (x <+: y) := by
  induction T with
  | nil => simp
  | cons a T ih => simp [List.cons_append, List.cons_prefix_cons, ih]

/-- The ordering constraint the pre-order walk guarantees: a later entry's
relative path is never a (weak) prefix of an earlier entry's relative path
(children come after their parent, and sibling subtrees are disjoint). -/
def entB (a b : Path × SrcNode) : Prop := ¬ (b.1 <+: a.1)

theorem walkForest_ne_nil : ∀ (f : SrcForest), ∀ e ∈ walkForest f, e.1 ≠ []
  | .nil => by simp [walkForest]
  | .cons n .file rest => by
    intro e he
    simp only [walkForest] at he
    rcases List.mem_cons.mp he with rfl | he'
    · simp
    · exact walkForest_ne_nil rest e he'
  | .cons n (.dir m cs) rest => by
    intro e he
    simp only [walkForest] at he
    rcases List.mem_cons.mp he with rfl | he'
    · simp
    · rcases List.mem_append.mp he' with h1 | h1
      · obtain ⟨x, hx, rfl⟩ := List.mem_map.mp h1
        simp
      · exact walkForest_ne_nil rest e h1

theorem walkForest_head : ∀ (f : SrcForest), ∀ e ∈ walkForest f,
    ∃ c tail, e.1 = c :: tail ∧ nameIn c f = true
  | .nil => by simp [walkForest]
  | .cons n .file rest => by
    intro e he
    simp only [walkForest] at he
    rcases List.mem_cons.mp he with rfl | he'
    · exact ⟨n, [], rfl, by simp [nameIn]⟩
    · obtain ⟨c, tail, hc, hin⟩ := walkForest_head rest e he'
      exact ⟨c, tail, hc, by simp [nameIn, hin]⟩
  | .cons n (.dir m cs) rest => by
    intro e he
    simp only [walkForest] at he
    rcases List.mem_cons.mp he with rfl | he'
    · exact ⟨n, [], rfl, by simp [nameIn]⟩
    · rcases List.mem_append.mp he' with h1 | h1
      · obtain ⟨x, hx, rfl⟩ := List.mem_map.mp h1
        exact ⟨n, x.1, rfl, by simp [nameIn]⟩
      · obtain ⟨c, tail, hc, hin⟩ := walkForest_head rest e h1
        exact ⟨c, tail, hc, by simp [nameIn, hin]⟩

theorem nameFresh_not_nameIn : ∀ (f : SrcForest) (n : String), nameFresh n f = true →
    ∀ c, nameIn c f = true → c ≠ n
  | .nil => by simp [nameIn]
  | .cons m node rest => by
    intro n hfresh c hin
    simp only [nameFresh, Bool.and_eq_true, bne_iff_ne] at hfresh
    simp only [nameIn, Bool.or_eq_true, beq_iff_eq] at hin
    rcases hin with rfl | hin
    · exact fun hcn => hfresh.1 hcn.symm
    · exact nameFresh_not_nameIn rest n hfresh.2 c hin

theorem pairB_walkForest : ∀ (f : SrcForest), wfbForest f = true →
    List.Pairwise entB (walkForest f)
  | .nil => by intro; simp [walkForest]
  | .cons n .file rest => by
    intro h
    simp only [wfbForest, Bool.and_eq_true] at h
    simp only [walkForest, List.pairwise_cons]
    refine ⟨fun b hb => ?_, pairB_walkForest rest h.2⟩
    obtain ⟨c, tail, hc, hin⟩ := walkForest_head rest b hb
    intro hpre
    rw [hc] at hpre
    rw [List.cons_prefix_cons] at hpre
    exact nameFresh_not_nameIn rest n h.1 c hin hpre.1
  | .cons n (.dir m cs) rest => by
    intro h
    simp only [wfbForest, Bool.and_eq_true] at h
    obtain ⟨⟨hfresh, hcs⟩, hrest⟩ := h
    simp only [walkForest, List.pairwise_cons]
    constructor
    · intro b hb
      rcases List.mem_append.mp hb with h1 | h1
      · obtain ⟨x, hx, rfl⟩ := List.mem_map.mp h1
        intro hpre
        rw [List.cons_prefix_cons] at hpre
        exact walkForest_ne_nil cs x hx (List.prefix_nil.mp hpre.2)
      · obtain ⟨c, tail, hc, hin⟩ := walkForest_head rest b h1
        intro hpre
        rw [hc, List.cons_prefix_cons] at hpre
        exact nameFresh_not_nameIn rest n hfresh c hin hpre.1
    · rw [List.pairwise_append]
      refine ⟨?_, pairB_walkForest rest hrest, ?_⟩
      · rw [List.pairwise_map]
        refine (pairB_walkForest cs hcs).imp ?_
        intro x y hxy hpre
        rw [List.cons_prefix_cons] at hpre
        exact hxy hpre.2
      · intro a ha b hb
        obtain ⟨x, hx, rfl⟩ := List.mem_map.mp ha
        obtain ⟨c, tail, hc, hin⟩ := walkForest_head rest b hb
        intro hpre
        rw [hc, List.cons_prefix_cons] at hpre
        exact nameFresh_not_nameIn rest n hfresh c hin hpre.1

theorem walkEntries_ne_nil {root : SrcNode} : ∀ e ∈ root.walkEntries, e.1 ≠ [] := by
  cases root with
  | file => simp [SrcNode.walkEntries]
  | dir m cs => exact walkForest_ne_nil cs

theorem pairB_walkEntries {root : SrcNode} (h : root.wfb = true) :
    List.Pairwise entB root.walkEntries := by
  cases root with
  | file => simp [SrcNode.walkEntries]
  | dir m cs => exact pairB_walkForest cs h

theorem lookupPkg_wfb : ∀ (f : SrcForest), wfbForest f = true →
    ∀ (pkg : String) (root : SrcNode), lookupPkg f pkg = some root → root.wfb = true
  | .nil => by simp [lookupPkg]
  | .cons n node rest => by
    intro h pkg root hl
    simp only [lookupPkg] at hl
    by_cases hn : n = pkg
    · rw [if_pos hn] at hl
      simp only [Option.some.injEq] at hl
      subst hl
      cases node with
      | file => rfl
      | dir m cs =>
        simp only [wfbForest, Bool.and_eq_true] at h
        exact h.1.2
    · rw [if_neg hn] at hl
      cases node with
      | file =>
        simp only [wfbForest, Bool.and_eq_true] at h
        exact lookupPkg_wfb rest h.2 pkg root hl
      | dir m cs =>
        simp only [wfbForest, Bool.and_eq_true] at h
        exact lookupPkg_wfb rest h.2 pkg root hl

/-! ## Real mode versus simulate mode -/

theorem createSymlink_ok_lookup {cfg : Config} {fs : FS} {s t : Path} {fs' : FS} {n : FSNode}
    (h : createSymlink cfg fs s t = .ok fs') (hl : lookupFS fs t = some n) :
    n = .symlink s ∧ fs' = fs := by
  cases n with
  | symlink d =>
    by_cases hds : d = s
    · subst hds
      rw [createSymlink_noop hl] at h
      simp only [Except.ok.injEq] at h
      exact ⟨rfl, h.symm⟩
    · rw [createSymlink_conflictOther hl hds] at h; simp at h
  | file => rw [createSymlink_conflictNotLink hl (fun d => by simp)] at h; simp at h
  | dir m => rw [createSymlink_conflictNotLink hl (fun d => by simp)] at h; simp at h

theorem symEntry_dir_sim_ok {cfg : Config} {P : Path} {fs : FS} {e : Path × SrcNode}
    (hsim : cfg.Simulate = true) (hdir : e.2.isDir = true) :
    symEntry cfg P fs e = .ok fs := by
  rw [symEntry_dir_eval cfg P fs e hdir]
  cases hstat : statNode fs (cfg.TargetDir ++ e.1) with
  | some w => rfl
  | none => rw [if_pos hsim]

/-- The relation between the simulate run's (unchanged) filesystem and the
real run's current filesystem: at every remaining file entry's target they
agree, except where the real run's unlink phase has already removed the
matching symlink. -/
def linkInv (T P : Path) (fs₀ g : FS) (entries : List (Path × SrcNode)) : Prop :=
  ∀ e ∈ entries, e.2.isDir = false →
    lookupFS g (T ++ e.1) = lookupFS fs₀ (T ++ e.1) ∨
    (lookupFS fs₀ (T ++ e.1) = some (.symlink (P ++ e.1)) ∧
      lookupFS g (T ++ e.1) = none)

/-- If the real-mode link walk fails with a decision error (a Conflict), the
simulate-mode walk over the same entries, starting from the snapshot the
real run started from, fails with the same error. -/
theorem runSym_real_to_sim {cfg : Config} (hsim : cfg.Simulate = true) {P : Path} :
    ∀ (entries : List (Path × SrcNode)) (fs₀ g : FS),
      List.Pairwise entB entries →
      linkInv cfg.TargetDir P fs₀ g entries →
      ∀ {er : SymError}, decisionError er = true →
      runSym { cfg with Simulate := false } P entries g = .error er →
      runSym cfg P entries fs₀ = .error er := by
  intro entries
  induction entries with
  | nil => intro fs₀ g _ _ er _ h; simp [runSym] at h
  | cons e rest ih =>
    intro fs₀ g hpair hinv er hder h
    obtain ⟨hphead, hptail⟩ := List.pairwise_cons.mp hpair
    simp only [runSym] at h
    cases hstep : symEntry { cfg with Simulate := false } P g e with
    | error er0 =>
      rw [hstep] at h
      simp only [Except.error.injEq] at h
      subst h
      cases hdir : e.2.isDir with
      | true =>
        obtain ⟨q, hq⟩ := symEntry_dir_err hdir hstep
        rw [hq] at hder
        simp [decisionError] at hder
      | false =>
        rw [symEntry_file_eval _ P g e hdir] at hstep
        obtain ⟨n, hln, hcase⟩ := createSymlink_err_decision hstep hder
        have hl₀ : lookupFS fs₀ (cfg.TargetDir ++ e.1) = some n := by
          rcases hinv e (List.mem_cons_self e rest) hdir with h1 | h1
          · rw [← h1]; exact hln
          · rw [h1.2] at hln; exact Option.noConfusion hln
        have hstep₀ : symEntry cfg P fs₀ e = .error er0 := by
          rw [symEntry_file_eval cfg P fs₀ e hdir]
          rcases hcase with ⟨d, hn, hds, her⟩ | ⟨hn, her⟩
          · rw [hn] at hl₀
            rw [her]
            exact createSymlink_conflictOther hl₀ hds
          · rw [her]
            exact createSymlink_conflictNotLink hl₀ hn
        simp only [runSym, hstep₀]
    | ok g₂ =>
      rw [hstep] at h
      have hstep₀ : symEntry cfg P fs₀ e = .ok fs₀ := by
        cases hdir : e.2.isDir with
        | true => exact symEntry_dir_sim_ok hsim hdir
        | false =>
          rw [symEntry_file_eval cfg P fs₀ e hdir]
          rw [symEntry_file_eval _ P g e hdir] at hstep
          rcases hinv e (List.mem_cons_self e rest) hdir with h1 | h1
          · cases hlg : lookupFS g (cfg.TargetDir ++ e.1) with
            | some n =>
              obtain ⟨hn, -⟩ := createSymlink_ok_lookup hstep hlg
              subst hn
              rw [hlg] at h1
              exact createSymlink_noop h1.symm
            | none =>
              rw [hlg] at h1
              exact createSymlink_none_sim hsim h1.symm
          · exact createSymlink_noop h1.1
      have hinv' : linkInv cfg.TargetDir P fs₀ g₂ rest := by
        intro e' he' hf'
        obtain ⟨-, hchar⟩ := symEntry_spec hstep
        rcases hchar (cfg.TargetDir ++ e'.1) with h1 | h1
        · rw [h1]
          exact hinv e' (List.mem_cons_of_mem e he') hf'
        · exfalso
          have hpre : e'.1 <+: e.1 := by
            have := h1.2.1
            exact append_same_left_iff.mp this
          exact hphead e' he' hpre
      simp only [runSym, hstep₀]
      exact ih fs₀ g₂ hptail hinv' hder h

/-! ## `ProcessPackage` evaluation and mode lemmas -/

theorem ProcessPackage_none_eval {cfg : Config} {faults : Path → Bool} {pkgs : SrcForest}
    {pkg : String} {fs : FS} (hl : lookupPkg pkgs pkg = none) :
    ProcessPackage cfg faults pkgs pkg fs = .error (.notFound (cfg.SymDir ++ [pkg])) := by
  simp [ProcessPackage, hl]

theorem ProcessPackage_some_eval {cfg : Config} {faults : Path → Bool} {pkgs : SrcForest}
    {pkg : String} {root : SrcNode} {fs : FS} (hl : lookupPkg pkgs pkg = some root) :
    ProcessPackage cfg faults pkgs pkg fs =
      if cfg.ReSym = true then
        match unsymPackage cfg faults pkg root fs with
        | .error e => .error (.unsymFailed e)
        | .ok fs' => symPackage cfg pkg root fs'
      else if cfg.Delete = true then unsymPackage cfg faults pkg root fs
      else symPackage cfg pkg root fs := by
  simp only [ProcessPackage, hl]

/-- Under simulate, a successful `ProcessPackage` returns the filesystem
unchanged. -/
theorem ProcessPackage_sim_nomut {cfg : Config} {faults : Path → Bool} {pkgs : SrcForest}
    {pkg : String} {fs fs' : FS} (hsim : cfg.Simulate = true)
    (h : ProcessPackage cfg faults pkgs pkg fs = .ok fs') : fs' = fs := by
  cases hl : lookupPkg pkgs pkg with
  | none => rw [ProcessPackage_none_eval hl] at h; simp at h
  | some root =>
    rw [ProcessPackage_some_eval hl] at h
    by_cases hre : cfg.ReSym = true
    · rw [if_pos hre] at h
      have hunsym : unsymPackage cfg faults pkg root fs = .ok fs :=
        runUnsym_sim hsim root.walkEntries fs
      rw [hunsym] at h
      exact runSym_sim_nomut hsim root.walkEntries fs fs' h
    · rw [if_neg hre] at h
      by_cases hdel : cfg.Delete = true
      · rw [if_pos hdel] at h
        have hunsym : unsymPackage cfg faults pkg root fs = .ok fs :=
          runUnsym_sim hsim root.walkEntries fs
        rw [hunsym] at h
        simp only [Except.ok.injEq] at h
        exact h.symm
      · rw [if_neg hdel] at h
        exact runSym_sim_nomut hsim root.walkEntries fs fs' h

/-- If real-mode processing fails with a NotFound or Conflict error, the
simulate run fails with the identical error. -/
theorem ProcessPackage_real_to_sim {cfg : Config} {faults : Path → Bool} {pkgs : SrcForest}
    {pkg : String} {fs : FS} (hsim : cfg.Simulate = true) (hwf : wfbForest pkgs = true)
    {er : SymError} (hder : decisionError er = true)
    (h : ProcessPackage { cfg with Simulate := false } faults pkgs pkg fs = .error er) :
    ProcessPackage cfg faults pkgs pkg fs = .error er := by
  cases hl : lookupPkg pkgs pkg with
  | none =>
    rw [ProcessPackage_none_eval hl] at h
    simp only [Except.error.injEq] at h
    rw [ProcessPackage_none_eval hl, ← h]
  | some root =>
    have hroot : root.wfb = true := lookupPkg_wfb pkgs hwf pkg root hl
    rw [ProcessPackage_some_eval hl] at h
    rw [ProcessPackage_some_eval hl]
    by_cases hre : cfg.ReSym = true
    · rw [show ({ cfg with Simulate := false } : Config).ReSym = cfg.ReSym from rfl,
        if_pos hre] at h
      rw [if_pos hre]
      have hunsym₀ : unsymPackage cfg faults pkg root fs = .ok fs :=
        runUnsym_sim hsim root.walkEntries fs
      rw [hunsym₀]
      cases hun : unsymPackage { cfg with Simulate := false } faults pkg root fs with
      | error e =>
        rw [hun] at h
        simp only [Except.error.injEq] at h
        rw [← h] at hder
        simp [decisionError] at hder
      | ok g =>
        rw [hun] at h
        have hinv : linkInv cfg.TargetDir (cfg.SymDir ++ [pkg]) fs g root.walkEntries := by
          intro e he hf'
          rcases runUnsym_char root.walkEntries fs g hun (cfg.TargetDir ++ e.1) with h1 | h1
          · exact Or.inl h1
          · obtain ⟨hnone, e', he', hf'', hp, hsym⟩ := h1
            have : e'.1 = e.1 := List.append_cancel_left hp.symm
            rw [this] at hsym
            exact Or.inr ⟨hsym, hnone⟩
        exact runSym_real_to_sim hsim root.walkEntries fs g
          (pairB_walkEntries hroot) hinv hder h
    · rw [show ({ cfg with Simulate := false } : Config).ReSym = cfg.ReSym from rfl,
        if_neg hre] at h
      rw [if_neg hre]
      by_cases hdel : cfg.Delete = true
      · rw [show ({ cfg with Simulate := false } : Config).Delete = cfg.Delete from rfl,
          if_pos hdel] at h
        obtain ⟨q, hq⟩ := runUnsym_err root.walkEntries fs h
        rw [hq] at hder
        simp [decisionError] at hder
      · rw [show ({ cfg with Simulate := false } : Config).Delete = cfg.Delete from rfl,
          if_neg hdel] at h
        rw [if_neg hdel]
        exact runSym_real_to_sim hsim root.walkEntries fs fs
          (pairB_walkEntries hroot)
          (fun e _ _ => Or.inl rfl) hder h

/-- A link walk over entries whose file targets already hold the matching
symlink and whose directory targets already resolve is a strict no-op. -/
theorem runSym_stable {cfg : Config} {P : Path} :
    ∀ (entries : List (Path × SrcNode)) (fs₁ : FS),
      (∀ e ∈ entries,
        (e.2.isDir = false →
          lookupFS fs₁ (cfg.TargetDir ++ e.1) = some (.symlink (P ++ e.1))) ∧
        (e.2.isDir = true → ∃ w, statNode fs₁ (cfg.TargetDir ++ e.1) = some w)) →
      runSym cfg P entries fs₁ = .ok fs₁ := by
  intro entries
  induction entries with
  | nil => intro fs₁ _; rfl
  | cons e rest ih =>
    intro fs₁ hpost
    have hstep : symEntry cfg P fs₁ e = .ok fs₁ := by
      cases hdir : e.2.isDir with
      | true =>
        obtain ⟨w, hw⟩ := (hpost e (List.mem_cons_self e rest)).2 hdir
        rw [symEntry_dir_eval cfg P fs₁ e hdir, hw]
      | false =>
        rw [symEntry_file_eval cfg P fs₁ e hdir]
        exact createSymlink_noop ((hpost e (List.mem_cons_self e rest)).1 hdir)
    simp only [runSym, hstep]
    exact ih fs₁ (fun e' he' => hpost e' (List.mem_cons_of_mem e he'))

/-- In real mode, a successful link walk over a prefix-free entry list
creates, at the target of every directory entry whose target path was
initially absent, a directory carrying the source directory's mode. -/
theorem runSym_dir_created {cfg : Config} {P : Path} (hreal : cfg.Simulate = false) :
    ∀ (entries : List (Path × SrcNode)) (fs fs' : FS),
      List.Pairwise entB entries →
      (∀ e ∈ entries, e.1 ≠ []) →
      runSym cfg P entries fs = .ok fs' →
      ∀ e ∈ entries, e.2.isDir = true →
        lookupFS fs (cfg.TargetDir ++ e.1) = none →
        lookupFS fs' (cfg.TargetDir ++ e.1) = some (.dir (e.2.perm)) := by
  intro entries
  induction entries with
  | nil => intro fs fs' _ _ _ e he; exact absurd he (List.not_mem_nil e)
  | cons e₀ rest ih =>
    intro fs fs' hpair hne h e he hdir hl
    obtain ⟨hphead, hptail⟩ := List.pairwise_cons.mp hpair
    simp only [runSym] at h
    cases hstep : symEntry cfg P fs e₀ with
    | error er => rw [hstep] at h; simp at h
    | ok fs₂ =>
      rw [hstep] at h
      rcases List.mem_cons.mp he with rfl | he'
      · rw [symEntry_dir_eval cfg P fs e hdir, statNode_of_lookup_none hl, hreal] at hstep
        simp only [Bool.false_eq_true, if_false] at hstep
        have hTne : cfg.TargetDir ++ e.1 ≠ [] := by
          intro hnil
          exact hne e (List.mem_cons_self e rest) (List.append_eq_nil.mp hnil).2
        have hself := mkdirAll_lookup_self hTne hl hstep
        exact (runSym_grows h).2 _ _ hself
      · have hl₂ : lookupFS fs₂ (cfg.TargetDir ++ e.1) = none := by
          obtain ⟨-, hchar⟩ := symEntry_spec hstep
          rcases hchar (cfg.TargetDir ++ e.1) with h1 | h1
          · rw [h1]; exact hl
          · exact absurd (append_same_left_iff.mp h1.2.1) (hphead e he')
        exact ih fs₂ fs' hptail (fun x hx => hne x (List.mem_cons_of_mem e₀ hx)) h e he' hdir hl₂

/-! ## Concrete data for witnesses and counterexamples -/

/-- A resolved configuration: source root `/s`, target root `/t`, default
(link) mode. -/
def cfgA : Config :=
  { SymDir := ["s"], TargetDir := ["t"], Verbose := false, Simulate := false,
    Delete := false, ReSym := false, Packages := ["p"] }

/-- A package holding one file `f` and one directory `c` containing `g`. -/
def rootA : SrcNode :=
  .dir 7 (.cons "f" .file (.cons "c" (.dir 5 (.cons "g" (.file) (.nil))) (.nil)))

/-! ## The claims -/

/-- Claim C1: for a single-entry link, a target that exists (probed by
`Lstat`, without following links) and is a symlink pointing elsewhere fails
with a Conflict error naming both the actual and the expected destination;
a target that exists and is not a symlink fails with a Conflict error.  In
both cases the result is the error alone — no filesystem is produced, so
the pre-existing target entry is neither deleted nor modified. -/
theorem claim_C1 (cfg : Config) (fs : FS) (srcPath targetPath : Path) :
    (∀ d, lookupFS fs targetPath = some (.symlink d) → ¬ d = srcPath →
      createSymlink cfg fs srcPath targetPath =
        .error (.conflictOther targetPath d srcPath)) ∧
    (∀ n, lookupFS fs targetPath = some n → (∀ d, ¬ n = .symlink d) →
      createSymlink cfg fs srcPath targetPath = .error (.conflictNotLink targetPath)) :=
  ⟨fun _ hl hne => createSymlink_conflictOther hl hne,
   fun _ hl hn => createSymlink_conflictNotLink hl hn⟩

theorem claim_C1_witness :
    createSymlink cfgA [(["t", "f"], .symlink ["o", "f"])] ["s", "p", "f"] ["t", "f"] =
      .error (.conflictOther ["t", "f"] ["o", "f"] ["s", "p", "f"]) ∧
    createSymlink cfgA [(["t", "g"], .file)] ["s", "p", "g"] ["t", "g"] =
      .error (.conflictNotLink ["t", "g"]) :=
  ⟨(claim_C1 cfgA [(["t", "f"], .symlink ["o", "f"])] ["s", "p", "f"] ["t", "f"]).1
      ["o", "f"] rfl (by decide),
   (claim_C1 cfgA [(["t", "g"], .file)] ["s", "p", "g"] ["t", "g"]).2
      .file rfl (fun d => by simp)⟩

/-- Claim C2: an unlink-walk entry removes the target only when it is a
symlink whose stored destination equals the source path (conjunct 1 states
that any change is exactly that removal); a missing target, a non-symlink
target, and a symlink pointing elsewhere are untouched without error
(conjuncts 2-4); the matching symlink is removed in real fault-free mode
(conjunct 5); and the unlink walk never removes a directory entry
(conjunct 6). -/
theorem claim_C2 (cfg : Config) (faults : Path → Bool) (fs : FS)
    (srcPath targetPath : Path) (pkg : String) (root : SrcNode) :
    (∀ fs', removeSymlink cfg faults fs srcPath targetPath = .ok fs' → fs' ≠ fs →
      lookupFS fs targetPath = some (.symlink srcPath) ∧ cfg.Simulate = false ∧
      fs' = eraseFS fs targetPath) ∧
    (lookupFS fs targetPath = none →
      removeSymlink cfg faults fs srcPath targetPath = .ok fs) ∧
    (∀ n, lookupFS fs targetPath = some n → (∀ d, ¬ n = .symlink d) →
      removeSymlink cfg faults fs srcPath targetPath = .ok fs) ∧
    (∀ d, lookupFS fs targetPath = some (.symlink d) → ¬ d = srcPath →
      removeSymlink cfg faults fs srcPath targetPath = .ok fs) ∧
    (lookupFS fs targetPath = some (.symlink srcPath) → cfg.Simulate = false →
      faults targetPath = false →
      removeSymlink cfg faults fs srcPath targetPath = .ok (eraseFS fs targetPath)) ∧
    (∀ fs' p m, unsymPackage cfg faults pkg root fs = .ok fs' →
      lookupFS fs p = some (.dir m) → lookupFS fs' p = some (.dir m)) := by
  refine ⟨?_, fun hl => removeSymlink_none hl, fun _ hl hn => removeSymlink_nonlink hl hn,
    fun _ hl hne => removeSymlink_other hl hne,
    fun hl hs hf => removeSymlink_match_real hs hf hl, ?_⟩
  · intro fs' h hne
    rcases removeSymlink_cases cfg faults fs srcPath targetPath with h1 | h1 | h1
    · rw [h1] at h
      simp only [Except.ok.injEq] at h
      exact absurd h.symm hne
    · rw [h1.2.2.2] at h
      simp only [Except.ok.injEq] at h
      exact ⟨h1.1, h1.2.1, h.symm⟩
    · rw [h1.2.2.2] at h
      exact Except.noConfusion h
  · intro fs' p m h hl
    rcases runUnsym_char root.walkEntries fs fs' h p with h1 | h1
    · rw [h1]; exact hl
    · obtain ⟨-, e, -, -, -, hsym⟩ := h1
      rw [hl] at hsym
      simp at hsym

theorem claim_C2_witness :
    removeSymlink cfgA noFaults
        [(["t", "f"], .symlink ["s", "p", "f"])] ["s", "p", "f"] ["t", "f"] =
      .ok (eraseFS [(["t", "f"], .symlink ["s", "p", "f"])] ["t", "f"]) ∧
    removeSymlink cfgA noFaults [(["t", "g"], .file)] ["s", "p", "g"] ["t", "g"] =
      .ok [(["t", "g"], .file)] :=
  ⟨(claim_C2 cfgA noFaults [(["t", "f"], .symlink ["s", "p", "f"])]
      ["s", "p", "f"] ["t", "f"] "p" rootA).2.2.2.2.1 rfl rfl rfl,
   (claim_C2 cfgA noFaults [(["t", "g"], .file)]
      ["s", "p", "g"] ["t", "g"] "p" rootA).2.2.1 .file rfl (fun d => by simp)⟩

/-- Claim C3: linking a single entry whose target already is a symlink with
the expected destination is a success that does not touch the filesystem
(conjunct 1); consequently a second link walk after a successful one
succeeds and returns the filesystem of the first run unchanged
(conjunct 2). -/
theorem claim_C3 (cfg : Config) (fs fs₁ : FS) (pkg : String) (root : SrcNode)
    (s t : Path) :
    (lookupFS fs t = some (.symlink s) → createSymlink cfg fs s t = .ok fs) ∧
    (symPackage cfg pkg root fs = .ok fs₁ → symPackage cfg pkg root fs₁ = .ok fs₁) := by
  refine ⟨fun hl => createSymlink_noop hl, fun h => ?_⟩
  by_cases hsim : cfg.Simulate = true
  · have hfs : fs₁ = fs := runSym_sim_nomut hsim root.walkEntries fs fs₁ h
    rw [hfs] at h ⊢
    exact h
  · have hreal : cfg.Simulate = false := by
      cases hx : cfg.Simulate
      · rfl
      · exact absurd hx hsim
    have hpost := runSym_post hreal root.walkEntries fs fs₁ walkEntries_ne_nil h
    exact runSym_stable root.walkEntries fs₁ hpost

theorem claim_C3_witness :
    symPackage cfgA "p" rootA [(["t"], .dir 493)] =
      .ok [(["t", "c", "g"], .symlink ["s", "p", "c", "g"]), (["t", "c"], .dir 5),
           (["t", "f"], .symlink ["s", "p", "f"]), (["t"], .dir 493)] ∧
    symPackage cfgA "p" rootA
        [(["t", "c", "g"], .symlink ["s", "p", "c", "g"]), (["t", "c"], .dir 5),
         (["t", "f"], .symlink ["s", "p", "f"]), (["t"], .dir 493)] =
      .ok [(["t", "c", "g"], .symlink ["s", "p", "c", "g"]), (["t", "c"], .dir 5),
           (["t", "f"], .symlink ["s", "p", "f"]), (["t"], .dir 493)] :=
  ⟨rfl,
   (claim_C3 cfgA [(["t"], .dir 493)]
      [(["t", "c", "g"], .symlink ["s", "p", "c", "g"]), (["t", "c"], .dir 5),
       (["t", "f"], .symlink ["s", "p", "f"]), (["t"], .dir 493)]
      "p" rootA [] []).2 rfl⟩

/-- Claim C10: both per-entry decisions read only the target's own link
status and stored destination, never whether that destination exists: at a
dangling symlink whose stored destination equals the source path
(`lookupFS fs s = none`), linking is a successful no-op and real-mode
unlinking removes the link. -/
theorem claim_C10 (cfg : Config) (faults : Path → Bool) (fs : FS) (s t : Path)
    (hl : lookupFS fs t = some (.symlink s)) (_hdangling : lookupFS fs s = none) :
    createSymlink cfg fs s t = .ok fs ∧
    (cfg.Simulate = false → faults t = false →
      removeSymlink cfg faults fs s t = .ok (eraseFS fs t)) :=
  ⟨createSymlink_noop hl, fun hs hf => removeSymlink_match_real hs hf hl⟩

theorem claim_C10_witness :
    createSymlink cfgA [(["t", "f"], .symlink ["s", "p", "f"])] ["s", "p", "f"] ["t", "f"] =
      .ok [(["t", "f"], .symlink ["s", "p", "f"])] ∧
    removeSymlink cfgA noFaults
        [(["t", "f"], .symlink ["s", "p", "f"])] ["s", "p", "f"] ["t", "f"] =
      .ok (eraseFS [(["t", "f"], .symlink ["s", "p", "f"])] ["t", "f"]) := by
  have h := claim_C10 cfgA noFaults [(["t", "f"], .symlink ["s", "p", "f"])]
    ["s", "p", "f"] ["t", "f"] rfl rfl
  exact ⟨h.1, h.2 rfl rfl⟩

/-- Claim C4: with simulate set, processing a package (in any mode) performs
no filesystem mutation — a successful run returns the filesystem unchanged
(conjunct 1) — while the decisions are still computed: every NotFound or
Conflict error the real-mode run would report is reported identically by the
simulate run (conjunct 2).  The well-formedness hypothesis says sibling
names in the source tree are distinct, as on a real filesystem. -/
theorem claim_C4 (cfg : Config) (faults : Path → Bool) (pkgs : SrcForest)
    (pkg : String) (fs : FS) (hsim : cfg.Simulate = true)
    (hwf : wfbForest pkgs = true) :
    (∀ fs', ProcessPackage cfg faults pkgs pkg fs = .ok fs' → fs' = fs) ∧
    (∀ er, decisionError er = true →
      ProcessPackage { cfg with Simulate := false } faults pkgs pkg fs = .error er →
      ProcessPackage cfg faults pkgs pkg fs = .error er) :=
  ⟨fun _ h => ProcessPackage_sim_nomut hsim h,
   fun _ hder h => ProcessPackage_real_to_sim hsim hwf hder h⟩

theorem claim_C4_witness :
    ProcessPackage { cfgA with Simulate := true } noFaults (.cons "p" rootA .nil) "p"
        [(["t", "f"], .file)] =
      .error (.conflictNotLink ["t", "f"]) :=
  (claim_C4 { cfgA with Simulate := true } noFaults (.cons "p" rootA .nil) "p"
      [(["t", "f"], .file)] rfl (by decide)).2
    (.conflictNotLink ["t", "f"]) rfl rfl

/-- Claim C5 is refuted as stated: here the link walk succeeds (the target
already holds the matching symlink, a no-op), yet link followed by unlink
does not restore the pre-link state up to directories — the unlink walk
removes the pre-existing symlink, which this link walk never created. -/
theorem claim_C5_counterexample :
    symPackage cfgA "p" (.dir 7 (.cons "f" (.file) (.nil)))
        [(["t", "f"], .symlink ["s", "p", "f"])] =
      .ok [(["t", "f"], .symlink ["s", "p", "f"])] ∧
    unsymPackage cfgA noFaults "p" (.dir 7 (.cons "f" (.file) (.nil)))
        [(["t", "f"], .symlink ["s", "p", "f"])] = .ok [] ∧
    lookupFS [(["t", "f"], .symlink ["s", "p", "f"])] ["t", "f"] =
      some (.symlink ["s", "p", "f"]) ∧
    lookupFS ([] : FS) ["t", "f"] = none :=
  ⟨rfl, rfl, rfl, rfl⟩

/-- Claim C5 (amended): if no file entry's target already holds its matching
symlink before linking, then after a successful link walk the unlink walk
(fault-free) succeeds and restores the target tree to its pre-link state up
to directories: every path is either unchanged or was absent before and now
holds a directory — in particular no symlink created by the link walk
remains. -/
theorem claim_C5_amended (cfg : Config) (pkg : String) (root : SrcNode) (fs fs₁ : FS)
    (hpre : ∀ e ∈ root.walkEntries, e.2.isDir = false →
      ¬ lookupFS fs (cfg.TargetDir ++ e.1) =
        some (.symlink ((cfg.SymDir ++ [pkg]) ++ e.1)))
    (hok : symPackage cfg pkg root fs = .ok fs₁) :
    ∃ fs₂, unsymPackage cfg noFaults pkg root fs₁ = .ok fs₂ ∧
      ∀ p, lookupFS fs₂ p = lookupFS fs p ∨
        (lookupFS fs p = none ∧ ∃ m, lookupFS fs₂ p = some (.dir m)) := by
  by_cases hsim : cfg.Simulate = true
  · have hfs : fs₁ = fs := runSym_sim_nomut hsim root.walkEntries fs fs₁ hok
    refine ⟨fs₁, runUnsym_sim hsim root.walkEntries fs₁, fun p => ?_⟩
    rw [hfs]
    exact Or.inl rfl
  · have hreal : cfg.Simulate = false := by
      cases hx : cfg.Simulate
      · rfl
      · exact absurd hx hsim
    have hpost := runSym_post hreal root.walkEntries fs fs₁ walkEntries_ne_nil hok
    obtain ⟨fs₂, hok₂, hempty⟩ :=
      runUnsym_removes hreal (fun _ => rfl) root.walkEntries fs₁
        (fun e he hf => Or.inl ((hpost e he).1 hf))
    refine ⟨fs₂, hok₂, fun p => ?_⟩
    obtain ⟨-, hcharL⟩ := runSym_ok_spec root.walkEntries fs fs₁ hok
    rcases runUnsym_char root.walkEntries fs₁ fs₂ hok₂ p with hU | hU
    · rcases hcharL p with hL | hL
      · exact Or.inl (hU.trans hL)
      · rcases hL.2 with hD | hS
        · obtain ⟨m, hm⟩ := hD
          exact Or.inr ⟨hL.1, m, hU.trans hm⟩
        · exfalso
          obtain ⟨e, he, hpEq, hf, hsym⟩ := hS
          have hnone := hempty e he hf
          rw [← hpEq] at hnone
          rw [hU, hsym] at hnone
          exact Option.noConfusion hnone
    · obtain ⟨hnone₂, e, he, hf, hpEq, hsym⟩ := hU
      rcases hcharL p with hL | hL
      · exfalso
        rw [hL] at hsym
        rw [hpEq] at hsym
        exact hpre e he hf hsym
      · rw [hnone₂, hL.1]
        exact Or.inl rfl

theorem claim_C5_witness :
    ∃ fs₂, unsymPackage cfgA noFaults "p" rootA
        [(["t", "c", "g"], .symlink ["s", "p", "c", "g"]), (["t", "c"], .dir 5),
         (["t", "f"], .symlink ["s", "p", "f"]), (["t"], .dir 493)] = .ok fs₂ ∧
      ∀ p, lookupFS fs₂ p = lookupFS [(["t"], FSNode.dir 493)] p ∨
        (lookupFS [(["t"], FSNode.dir 493)] p = none ∧
          ∃ m, lookupFS fs₂ p = some (.dir m)) :=
  claim_C5_amended cfgA "p" rootA [(["t"], .dir 493)]
    [(["t", "c", "g"], .symlink ["s", "p", "c", "g"]), (["t", "c"], .dir 5),
     (["t", "f"], .symlink ["s", "p", "f"]), (["t"], .dir 493)]
    (by decide) rfl

/-- Claim C6: with the package found, processing dispatches by mode: in
relink mode it is exactly unlink-then-link, the unlink error (if any)
aborting the link phase and surfacing wrapped as `unsymFailed` (conjuncts
1-2); in delete mode it is the unlink walk alone (conjunct 3); otherwise the
link walk alone (conjunct 4). -/
theorem claim_C6 (cfg : Config) (faults : Path → Bool) (pkgs : SrcForest)
    (pkg : String) (root : SrcNode) (fs : FS)
    (hfound : lookupPkg pkgs pkg = some root) :
    (cfg.ReSym = true →
      ProcessPackage cfg faults pkgs pkg fs =
        (match unsymPackage cfg faults pkg root fs with
         | .error e => .error (.unsymFailed e)
         | .ok fs' => symPackage cfg pkg root fs')) ∧
    (cfg.ReSym = true → ∀ e, unsymPackage cfg faults pkg root fs = .error e →
      ProcessPackage cfg faults pkgs pkg fs = .error (.unsymFailed e)) ∧
    (cfg.ReSym = false → cfg.Delete = true →
      ProcessPackage cfg faults pkgs pkg fs = unsymPackage cfg faults pkg root fs) ∧
    (cfg.ReSym = false → cfg.Delete = false →
      ProcessPackage cfg faults pkgs pkg fs = symPackage cfg pkg root fs) := by
  refine ⟨fun hre => ?_, fun hre e he => ?_, fun hre hdel => ?_, fun hre hdel => ?_⟩
  · rw [ProcessPackage_some_eval hfound, if_pos hre]
  · rw [ProcessPackage_some_eval hfound, if_pos hre, he]
  · rw [ProcessPackage_some_eval hfound, if_neg (by rw [hre]; simp), if_pos hdel]
  · rw [ProcessPackage_some_eval hfound, if_neg (by rw [hre]; simp),
      if_neg (by rw [hdel]; simp)]

theorem claim_C6_witness :
    ProcessPackage { cfgA with ReSym := true } (fun p => decide (p = ["t", "f"]))
        (.cons "p" rootA .nil) "p" [(["t", "f"], .symlink ["s", "p", "f"])] =
      .error (.unsymFailed (.removeFailed ["t", "f"])) :=
  (claim_C6 { cfgA with ReSym := true } (fun p => decide (p = ["t", "f"]))
      (.cons "p" rootA .nil) "p" rootA [(["t", "f"], .symlink ["s", "p", "f"])]
      rfl).2.1 rfl (.removeFailed ["t", "f"]) rfl

/-- Claim C7 is refuted as stated: the package holds one (empty) directory
entry `d`; its target `/t/d` pre-exists as a plain file, the link walk
succeeds (the existence probe finds the target and skips it), and the
directory entry has not become a real directory at the target location —
the plain file remains. -/
theorem claim_C7_counterexample :
    symPackage cfgA "p" (.dir 7 (.cons "d" (.dir 5 (.nil)) (.nil)))
        [(["t", "d"], .file), (["t"], .dir 493)] =
      .ok [(["t", "d"], .file), (["t"], .dir 493)] ∧
    lookupFS [(["t", "d"], .file), (["t"], .dir 493)] ["t", "d"] = some .file :=
  ⟨rfl, rfl⟩

/-- Claim C7 (amended): every entry is addressed at
`targetPath = targetRoot ++ relativePath`; after a successful real-mode link
walk over a well-formed package, every non-directory entry's target holds a
symlink whose destination is the absolute source path, and every directory
entry whose target location was initially absent holds a real directory
(with the source directory's mode), never a symlink; a directory target
that was already occupied is left as whatever it was. -/
theorem claim_C7_amended (cfg : Config) (pkg : String) (root : SrcNode) (fs fs₁ : FS)
    (hreal : cfg.Simulate = false) (hwf : root.wfb = true)
    (hok : symPackage cfg pkg root fs = .ok fs₁) :
    (∀ e ∈ root.walkEntries, e.2.isDir = false →
      lookupFS fs₁ (cfg.TargetDir ++ e.1) =
        some (.symlink ((cfg.SymDir ++ [pkg]) ++ e.1))) ∧
    (∀ e ∈ root.walkEntries, e.2.isDir = true →
      lookupFS fs (cfg.TargetDir ++ e.1) = none →
      lookupFS fs₁ (cfg.TargetDir ++ e.1) = some (.dir (e.2.perm))) := by
  constructor
  · intro e he hf
    exact (runSym_post hreal root.walkEntries fs fs₁ walkEntries_ne_nil hok e he).1 hf
  · intro e he hd hl
    exact runSym_dir_created hreal root.walkEntries fs fs₁
      (pairB_walkEntries hwf) walkEntries_ne_nil hok e he hd hl

theorem claim_C7_witness :
    lookupFS [(["t", "c", "g"], .symlink ["s", "p", "c", "g"]), (["t", "c"], .dir 5),
        (["t", "f"], .symlink ["s", "p", "f"]), (["t"], .dir 493)] ["t", "f"] =
      some (.symlink ["s", "p", "f"]) ∧
    lookupFS [(["t", "c", "g"], .symlink ["s", "p", "c", "g"]), (["t", "c"], .dir 5),
        (["t", "f"], .symlink ["s", "p", "f"]), (["t"], .dir 493)] ["t", "c"] =
      some (.dir 5) := by
  have h := claim_C7_amended cfgA "p" rootA [(["t"], .dir 493)]
    [(["t", "c", "g"], .symlink ["s", "p", "c", "g"]), (["t", "c"], .dir 5),
     (["t", "f"], .symlink ["s", "p", "f"]), (["t"], .dir 493)]
    rfl (by decide) rfl
  exact ⟨h.1 (["f"], .file) (List.mem_cons_self _ _) rfl,
    h.2 (["c"], .dir 5 (.cons "g" (.file) (.nil)))
      (List.mem_cons_of_mem _ (List.mem_cons_self _ _)) rfl rfl⟩

/-- Claim C8 is refuted as stated: the package path exists as a plain file,
not a directory; the claim requires a NotFound-style failure, but the code
only checks `os.IsNotExist` on the `Stat` error, so processing proceeds —
walking the file visits only the (skipped) root — and succeeds doing
nothing. -/
theorem claim_C8_counterexample :
    ProcessPackage cfgA noFaults (.cons "p" (.file) (.nil)) "p" [] = .ok [] := rfl

/-- Claim C8 (amended): processing resolves
`packageRoot = join(sourceRoot, packageName)` and fails with a NotFound
error — before performing any walk — exactly when that path does not exist
(conjuncts 1-2); a package path that exists but is a plain file is not
rejected: processing succeeds in every mode, mutating nothing, because the
walk visits only the skipped root. -/
theorem claim_C8_amended (cfg : Config) (faults : Path → Bool) (pkgs : SrcForest)
    (pkg : String) (fs : FS) :
    (lookupPkg pkgs pkg = none →
      ProcessPackage cfg faults pkgs pkg fs =
        .error (.notFound (cfg.SymDir ++ [pkg]))) ∧
    (∀ q, ProcessPackage cfg faults pkgs pkg fs = .error (.notFound q) →
      lookupPkg pkgs pkg = none ∧ q = cfg.SymDir ++ [pkg]) ∧
    (lookupPkg pkgs pkg = some (.file) →
      ProcessPackage cfg faults pkgs pkg fs = .ok fs) := by
  refine ⟨fun hl => ProcessPackage_none_eval hl, fun q h => ?_, fun hl => ?_⟩
  · cases hl : lookupPkg pkgs pkg with
    | none =>
      rw [ProcessPackage_none_eval hl] at h
      simp only [Except.error.injEq, SymError.notFound.injEq] at h
      exact ⟨rfl, h.symm⟩
    | some root =>
      exfalso
      rw [ProcessPackage_some_eval hl] at h
      by_cases hre : cfg.ReSym = true
      · rw [if_pos hre] at h
        cases hun : unsymPackage cfg faults pkg root fs with
        | error e => rw [hun] at h; simp at h
        | ok g =>
          rw [hun] at h
          have := runSym_err_shape root.walkEntries g h
          simp [symStepError] at this
      · rw [if_neg hre] at h
        by_cases hdel : cfg.Delete = true
        · rw [if_pos hdel] at h
          obtain ⟨r, hr⟩ := runUnsym_err root.walkEntries fs h
          exact SymError.noConfusion (hr ▸ rfl : (SymError.notFound q) = .removeFailed r)
        · rw [if_neg hdel] at h
          have := runSym_err_shape root.walkEntries fs h
          simp [symStepError] at this
  · rw [ProcessPackage_some_eval hl]
    by_cases hre : cfg.ReSym = true
    · rw [if_pos hre]
      rfl
    · rw [if_neg hre]
      by_cases hdel : cfg.Delete = true
      · rw [if_pos hdel]
        rfl
      · rw [if_neg hdel]
        rfl

theorem claim_C8_witness :
    ProcessPackage cfgA noFaults (.cons "q" (.file) (.nil)) "p" [(["t"], .dir 493)] =
      .error (.notFound ["s", "p"]) :=
  (claim_C8_amended cfgA noFaults (.cons "q" (.file) (.nil)) "p"
    [(["t"], .dir 493)]).1 rfl

/-- Claim C9 is refuted as stated: a directory entry whose target pre-exists
as a plain file is skipped (the probe only checks existence, not
directoriness), so the step succeeds without ensuring that the target
exists as a directory. -/
theorem claim_C9_counterexample :
    symEntry cfgA ["s", "p"] [(["t", "d"], .file)] (["d"], .dir 5 (.nil)) =
      .ok [(["t", "d"], .file)] ∧
    lookupFS [(["t", "d"], .file)] ["t", "d"] = some .file :=
  ⟨rfl, rfl⟩

/-- Claim C9 (amended): a directory entry of the link walk never produces a
Conflict error — its only failure is a directory-creation IO failure
(conjunct 1); a target reported existing by the (link-following) probe is
left untouched, whatever it is, and the walk continues (conjunct 2); under
simulate the step mutates nothing (conjunct 3); and when the probe reports
the target missing in real mode, a successful step has created it as a
directory with the source directory's permission bits (conjunct 4). -/
theorem claim_C9_amended (cfg : Config) (P : Path) (fs : FS) (e : Path × SrcNode)
    (hdir : e.2.isDir = true) (hne : e.1 ≠ []) :
    (∀ er, symEntry cfg P fs e = .error er → ∃ q, er = .mkdirFailed q) ∧
    (∀ w, statNode fs (cfg.TargetDir ++ e.1) = some w → symEntry cfg P fs e = .ok fs) ∧
    (cfg.Simulate = true → symEntry cfg P fs e = .ok fs) ∧
    (statNode fs (cfg.TargetDir ++ e.1) = none → cfg.Simulate = false →
      ∀ fs', symEntry cfg P fs e = .ok fs' →
        lookupFS fs' (cfg.TargetDir ++ e.1) = some (.dir (e.2.perm))) := by
  refine ⟨fun er h => symEntry_dir_err hdir h, fun w hw => ?_,
    fun hsim => symEntry_dir_sim_ok hsim hdir, fun hstat hreal fs' h => ?_⟩
  · rw [symEntry_dir_eval cfg P fs e hdir, hw]
  · rw [symEntry_dir_eval cfg P fs e hdir, hstat, hreal] at h
    simp only [Bool.false_eq_true, if_false] at h
    have hTne : cfg.TargetDir ++ e.1 ≠ [] := by
      intro hnil
      exact hne (List.append_eq_nil.mp hnil).2
    exact (mkdirAll_top hTne hstat h).2

theorem claim_C9_witness :
    symEntry cfgA ["s", "p"] [(["t"], .dir 493)] (["d"], .dir 5 (.nil)) =
      .ok [(["t", "d"], .dir 5), (["t"], .dir 493)] ∧
    lookupFS [(["t", "d"], .dir 5), (["t"], .dir 493)] ["t", "d"] = some (.dir 5) := by
  have h := claim_C9_amended cfgA ["s", "p"] [(["t"], .dir 493)] (["d"], .dir 5 (.nil))
    rfl (by decide)
  exact ⟨rfl, h.2.2.2 rfl rfl [(["t", "d"], .dir 5), (["t"], .dir 493)] rfl⟩

end SymSpec

